import Mathlib

/-!
Verification development for the openapi-mcp-server repository.

The development shallowly embeds the schema-resolution engine of
`src/tool-generator.ts` (class `ToolGenerator`) and the operation invoker of
the API client (`executeOperation` and its helpers), and proves properties of
the embedded code.

Modelling conventions:
* JavaScript runtime values that can arrive through MCP/JSON arguments are
  modelled by `JValue`; JavaScript numbers are modelled by `JSNum`
  (NaN / +Infinity / -Infinity / finite rational).  Finite doubles are
  modelled as rationals; none of the verified properties depends on
  floating-point rounding.
* Host-language builtins used by the source (`Number(...)`, `String(...)`,
  `JSON.parse`, `JSON.stringify`, `encodeURIComponent`, `URLSearchParams`,
  `path.basename` / `path.extname`, `String.prototype.toLowerCase`,
  `String.prototype.trim`) are embedded as executable Lean functions modelling
  the ECMAScript behaviour on the value shapes that can occur here.  Unicode
  case mapping, locale collation and exponential float formatting are
  approximated by their ASCII / code-unit behaviour, which is exact for every
  input used in the theorems below.
* `undefined` is modelled by `Option.none`; a JS object / argument bag is
  modelled as a finite map.  File-system state (for multipart upload) is a
  function from paths to `FsEntry`.
* A JavaScript computation that does not terminate (the source can recurse
  forever, see the file-upload detector on cyclic `$ref` chains) is modelled
  by `Option.none` in the `Option`-monadic embedding of `resolveSchema`.
-/

namespace OpenapiMcp

/-- Model of a JavaScript number: NaN, the two infinities, or a finite value
(finite doubles are represented as rationals). -/
inductive JSNum where
  | nan
  | inf
  | neginf
  | fin (q : ℚ)
  deriving DecidableEq, Repr

/-- A JavaScript number is finite when it is neither NaN nor an infinity. -/
def JSNum.isFinite : JSNum → Bool
  | .fin _ => true
  | _ => false

/-- Model of a JSON-transportable JavaScript value (plus non-finite numbers,
which can be produced by coercion even though JSON cannot carry them). -/
inductive JValue where
  | null
  | bool (b : Bool)
  | num (x : JSNum)
  | str (s : String)
  | arr (xs : List JValue)
  | obj (fields : List (String × JValue))
  deriving Repr

/-- JavaScript truthiness of a value (`if (value)`). -/
def jsTruthy : JValue → Bool
  | .null => false
  | .bool b => b
  | .num (.fin q) => q ≠ 0
  | .num .nan => false
  | .num _ => true
  | .str s => s ≠ ""
  | .arr _ => true
  | .obj _ => true

/-- JavaScript `typeof` of a value. -/
def jsTypeof : JValue → String
  | .null => "object"
  | .bool _ => "boolean"
  | .num _ => "number"
  | .str _ => "string"
  | .arr _ => "object"
  | .obj _ => "object"

/-- Characters removed by `String.prototype.trim` and by string-to-number
conversion (ASCII whitespace plus the common Unicode space characters). -/
def jsWhitespaceChar (c : Char) : Bool :=
  c = ' ' || c = '\t' || c = '\n' || c = '\r' || c = '\x0b' || c = '\x0c' ||
  c = ' ' || c = '﻿'

/-- JavaScript `String.prototype.trim` (on the characters above). -/
def jsTrim (s : String) : String :=
  ⟨(s.data.dropWhile jsWhitespaceChar).reverse.dropWhile jsWhitespaceChar |>.reverse⟩

/-- Decimal digit test. -/
def isDigitChar (c : Char) : Bool := '0' ≤ c && c ≤ '9'

/-- Split the longest leading run of decimal digits. -/
def takeDigits (cs : List Char) : List Char × List Char :=
  (cs.takeWhile isDigitChar, cs.dropWhile isDigitChar)

/-- Numeric value of a run of decimal digits. -/
def digitsToNat (cs : List Char) : Nat :=
  cs.foldl (fun acc c => acc * 10 + (c.toNat - '0'.toNat)) 0

/-- Value of one digit in a given radix, if valid. -/
def radixDigitVal (radix : Nat) (c : Char) : Option Nat :=
  let v : Nat :=
    if '0' ≤ c && c ≤ '9' then c.toNat - '0'.toNat
    else if 'a' ≤ c && c ≤ 'f' then c.toNat - 'a'.toNat + 10
    else if 'A' ≤ c && c ≤ 'F' then c.toNat - 'A'.toNat + 10
    else 99
  if v < radix then some v else none

/-- Parse a non-empty all-digits string in a radix (for `0x`/`0o`/`0b`
literals accepted by JavaScript's string-to-number conversion). -/
def parseRadixNat (radix : Nat) (cs : List Char) : Option Nat :=
  match cs with
  | [] => none
  | _ =>
    cs.foldl (fun acc c => do
      let a ← acc
      let d ← radixDigitVal radix c
      pure (a * radix + d)) (some 0)

/-- Parse the unsigned decimal part of a JavaScript numeric string:
`digits [. digits] [e|E [+|-] digits]`, requiring a non-empty mantissa and
full consumption of the input. -/
def parseDecMantissa (cs : List Char) : Option ℚ := do
  let (ip, r1) := takeDigits cs
  let (fp, r2) ←
    match r1 with
    | '.' :: rest => pure (takeDigits rest)
    | _ => pure (([] : List Char), r1)
  if ip.isEmpty && fp.isEmpty then none
  else
    let mant : ℚ := (digitsToNat ip : ℚ) + (digitsToNat fp : ℚ) / ((10 : ℚ) ^ fp.length)
    match r2 with
    | [] => pure mant
    | 'e' :: rest => applyExp mant rest
    | 'E' :: rest => applyExp mant rest
    | _ => none
where
  applyExp (mant : ℚ) (rest : List Char) : Option ℚ := do
    let (negExp, ds) ←
      match rest with
      | '+' :: ds => pure (false, ds)
      | '-' :: ds => pure (true, ds)
      | ds => pure (false, ds)
    match ds with
    | [] => none
    | _ =>
      if ds.all isDigitChar then
        let e := digitsToNat ds
        pure (if negExp then mant / ((10 : ℚ) ^ e) else mant * ((10 : ℚ) ^ e))
      else none

/-- JavaScript string-to-number conversion (`Number(string)`): trim, empty
string is `0`, optional sign with `Infinity` or a decimal literal, or an
unsigned `0x`/`0o`/`0b` radix literal; anything else is NaN. -/
def strToNum (s : String) : JSNum :=
  let cs := (jsTrim s).data
  match cs with
  | [] => .fin 0
  | '0' :: x :: rest =>
    if x = 'x' || x = 'X' then (parseRadixNat 16 rest).elim .nan (fun n => .fin n)
    else if x = 'o' || x = 'O' then (parseRadixNat 8 rest).elim .nan (fun n => .fin n)
    else if x = 'b' || x = 'B' then (parseRadixNat 2 rest).elim .nan (fun n => .fin n)
    else signedDec cs
  | _ => signedDec cs
where
  signedDec (cs : List Char) : JSNum :=
    let (neg, body) :=
      match cs with
      | '+' :: rest => (false, rest)
      | '-' :: rest => (true, rest)
      | rest => (false, rest)
    if body = "Infinity".data then (if neg then .neginf else .inf)
    else
      match parseDecMantissa body with
      | some q => .fin (if neg then -q else q)
      | none => .nan

/-- Decimal digit character of a value below 16 (uppercase for hex). -/
def hexDigitChar (n : Nat) : Char :=
  if n < 10 then Char.ofNat ('0'.toNat + n)
  else Char.ofNat ('A'.toNat + (n - 10))

/-- Fractional decimal expansion of `r / d` (`r < d`), with enough fuel for
any dyadic rational produced by a double. -/
def fracDigits (fuel : Nat) (r d : Nat) : List Char :=
  match fuel with
  | 0 => []
  | fuel + 1 =>
    if r = 0 then []
    else
      let r10 := r * 10
      Char.ofNat ('0'.toNat + r10 / d) :: fracDigits fuel (r10 % d) d

/-- Decimal rendering of a rational, as JavaScript renders a finite double
(no exponential notation; exact for the dyadic values doubles can hold). -/
def qToDecString (q : ℚ) : String :=
  let n := q.num.natAbs
  let d := q.den
  let ipart := toString (n / d)
  let fpart := fracDigits 1200 (n % d) d
  (if q < 0 then "-" else "") ++ ipart ++
    (if fpart.isEmpty then "" else "." ++ ⟨fpart⟩)

/-- JavaScript rendering of a number (`String(num)`). -/
def numToString : JSNum → String
  | .nan => "NaN"
  | .inf => "Infinity"
  | .neginf => "-Infinity"
  | .fin q => qToDecString q

mutual

/-- JavaScript `String(value)` on the modelled values (arrays render by
`Array.prototype.join`, plain objects render as `[object Object]`). -/
def jsToString : JValue → String
  | .null => "null"
  | .bool b => cond b "true" "false"
  | .num x => numToString x
  | .str s => s
  | .arr xs => String.intercalate "," (jsArrElemStrings xs)
  | .obj _ => "[object Object]"

/-- Element strings for `Array.prototype.join`: `null` joins as the empty
string, every other element joins as its `String(...)` form. -/
def jsArrElemStrings : List JValue → List String
  | [] => []
  | v :: vs =>
    (match v with
     | .null => ""
     | w => jsToString w) :: jsArrElemStrings vs

end

/-- JavaScript `Number(value)` on the modelled values.  An array converts
through its primitive (join) string, exactly as `ToNumber(ToPrimitive(v))`
prescribes; a plain object's primitive string `[object Object]` is NaN. -/
def jsToNumber : JValue → JSNum
  | .null => .fin 0
  | .bool b => .fin (cond b 1 0)
  | .num x => x
  | .str s => strToNum s
  | .arr xs => strToNum (jsToString (.arr xs))
  | .obj _ => .nan

end OpenapiMcp

namespace OpenapiMcp

/-! ## Schema data model

`RawSchema` models an OpenAPI schema node as it appears in the loaded
document (`OpenAPIV3.SchemaObject | ReferenceObject`): either a `$ref` or a
plain node.  Absent JSON fields are `none`.  `RawCore` groups the non-recursive
fields.  `example`/`default` are named `exampleVal`/`defaultVal` because
`example` is a Lean keyword. -/

structure RawCore where
  type : Option String := none
  format : Option String := none
  description : Option String := none
  pattern : Option String := none
  nullable : Option Bool := none
  minimum : Option ℚ := none
  maximum : Option ℚ := none
  minLength : Option Nat := none
  maxLength : Option Nat := none
  enum : Option (List JValue) := none
  exampleVal : Option JValue := none
  defaultVal : Option JValue := none
  required : Option (List String) := none
  deriving Repr

/-- A raw OpenAPI schema node: a `$ref` or a node with core fields, nested
`properties`, `additionalProperties` (boolean or schema), `items` and the
three composition lists. -/
inductive RawSchema where
  | ref (r : String)
  | node (core : RawCore)
      (properties : Option (List (String × RawSchema)))
      (additionalProperties : Option (Sum Bool RawSchema))
      (items : Option RawSchema)
      (oneOf : Option (List RawSchema))
      (anyOf : Option (List RawSchema))
      (allOf : Option (List RawSchema))
  deriving Repr

/-- Whether a raw schema node is a bare `$ref`. -/
def RawSchema.isRef : RawSchema → Bool
  | .ref _ => true
  | _ => false

/-- Core fields of the `ResolvedSchema` interface of `tool-generator.ts`:
`type` is always assigned by `resolveSchema`, the rest are optional. -/
structure RCore where
  type : String
  description : Option String := none
  exampleVal : Option JValue := none
  defaultVal : Option JValue := none
  minimum : Option ℚ := none
  maximum : Option ℚ := none
  minLength : Option Nat := none
  maxLength : Option Nat := none
  pattern : Option String := none
  format : Option String := none
  nullable : Option Bool := none
  enum : Option (List JValue) := none
  required : Option (List String) := none
  deriving Repr

/-- The `ResolvedSchema` value type produced by `resolveSchema`. -/
inductive Resolved where
  | mk (core : RCore)
      (properties : Option (List (String × Resolved)))
      (additionalProperties : Option (Sum Bool Resolved))
      (items : Option Resolved)
      (oneOf : Option (List Resolved))
      (anyOf : Option (List Resolved))
      (allOf : Option (List Resolved))
  deriving Repr

def Resolved.core : Resolved → RCore
  | .mk c _ _ _ _ _ _ => c

def Resolved.properties : Resolved → Option (List (String × Resolved))
  | .mk _ p _ _ _ _ _ => p

def Resolved.additionalProperties : Resolved → Option (Sum Bool Resolved)
  | .mk _ _ a _ _ _ _ => a

def Resolved.items : Resolved → Option Resolved
  | .mk _ _ _ i _ _ _ => i

def Resolved.oneOf : Resolved → Option (List Resolved)
  | .mk _ _ _ _ o _ _ => o

def Resolved.anyOf : Resolved → Option (List Resolved)
  | .mk _ _ _ _ _ a _ => a

def Resolved.allOf : Resolved → Option (List Resolved)
  | .mk _ _ _ _ _ _ a => a

def Resolved.type (r : Resolved) : String := r.core.type

def Resolved.description (r : Resolved) : Option String := r.core.description

def Resolved.format (r : Resolved) : Option String := r.core.format

/-- The schema document, abstracted as a finite map from full reference
strings (e.g. `#/components/schemas/Pet`) to their target raw schema nodes.
`resolveReference` of the source walks the pointer path segment by segment
from the document root and fails on a missing segment; that walk is modelled
by the lookup, an absent key modelling any unsupported or dangling pointer. -/
def SchemaDoc := List (String × RawSchema)

/-- `ToolGenerator.resolveReference` (minus its pure memoization cache, which
is semantically transparent on an immutable document). -/
def resolveReference (doc : SchemaDoc) (r : String) : Option RawSchema :=
  List.lookup r doc

end OpenapiMcp

namespace OpenapiMcp

/-- Number of document keys not yet on the in-flight stack: the primary
termination measure for reference-following recursion. -/
def keysNotIn (doc : SchemaDoc) (stack : List String) : Nat :=
  (doc.map Prod.fst).countP (fun k => !(decide (k ∈ stack)))

theorem countP_notin_cons_lt (l : List String) (stack : List String) (r : String)
    (hmem : r ∈ l) (hnot : r ∉ stack) :
    l.countP (fun k => !(decide (k ∈ r :: stack))) < l.countP (fun k => !(decide (k ∈ stack))) := by
  induction l with
  | nil => simp at hmem
  | cons a as ih =>
    have hmono : ∀ b, b ∈ as → (!(decide (b ∈ r :: stack))) = true →
        (!(decide (b ∈ stack))) = true := by
      intro b _ hb
      simp only [Bool.not_eq_true', decide_eq_false_iff_not, List.mem_cons, not_or] at hb ⊢
      exact hb.2
    have hle : as.countP (fun k => !(decide (k ∈ r :: stack)))
        ≤ as.countP (fun k => !(decide (k ∈ stack))) := List.countP_mono_left hmono
    simp only [List.countP_cons]
    by_cases hra : r = a
    · subst hra
      have e1 : (!(decide (r ∈ r :: stack))) = false := by simp
      have e2 : (!(decide (r ∈ stack))) = true := by simpa using hnot
      rw [e1, e2]
      have z0 : (if (false = true) then 1 else 0) = 0 := rfl
      have z1 : (if (true = true) then 1 else 0) = 1 := rfl
      rw [z0, z1]
      omega
    · have hras : r ∈ as := by
        rcases List.mem_cons.mp hmem with h | h
        · exact absurd h hra
        · exact h
      have hlt := ih hras
      have hstep : (if (!(decide (a ∈ r :: stack))) = true then 1 else 0)
          ≤ (if (!(decide (a ∈ stack))) = true then 1 else 0) := by
        by_cases hx : a ∈ stack
        · have hy : a ∈ r :: stack := List.mem_cons_of_mem _ hx
          simp [hx, hy]
        · by_cases hy : a ∈ r :: stack <;> simp [hx, hy]
      omega

theorem lookup_mem_keys {α : Type} (doc : List (String × α)) (r : String) (t : α)
    (h : List.lookup r doc = some t) : r ∈ doc.map Prod.fst := by
  induction doc with
  | nil => simp [List.lookup] at h
  | cons kv rest ih =>
    rw [List.lookup] at h
    by_cases he : r = kv.1
    · simp [he]
    · have hne : (r == kv.1) = false := by simpa using he
      rw [hne] at h
      simp only [List.map_cons, List.mem_cons]
      exact Or.inr (ih h)

theorem keysNotIn_lt (doc : SchemaDoc) (stack : List String) (r : String) (t : RawSchema)
    (hl : List.lookup r doc = some t) (hnot : r ∉ stack) :
    keysNotIn doc (r :: stack) < keysNotIn doc stack :=
  countP_notin_cons_lt _ _ _ (lookup_mem_keys doc r t hl) hnot

/-- Option-monadic element-wise map, sequencing left to right (the loop shape
used by the source's property/branch resolution). -/
def mapOpt {a b : Type} : List a → (a → Option b) → Option (List b)
  | [], _ => some []
  | x :: xs, f => do
    let y ← f x
    let ys ← mapOpt xs f
    pure (y :: ys)

/-- `ToolGenerator.isFileUploadSchema`: detects a file-upload field.  The
source follows `$ref` targets with no cycle protection, so on a reference
whose (possibly chained) target is again an already-visited reference it
recurses forever — a runtime stack overflow.  The model threads the visited
references only to detect that revisit; `none` marks the source's divergence
(the document is immutable, so revisiting a reference implies an infinite
recursion), `some b` is the value the source returns when it terminates.  The
source call sites pass an empty visited set. -/
def isFileUploadSchema (doc : SchemaDoc) (visited : List String) :
    RawSchema → Option Bool
  | .ref r =>
    if hv : r ∈ visited then none
    else
      match hl : resolveReference doc r with
      | some t => isFileUploadSchema doc (r :: visited) t
      | none => some false
  | .node core _ _ items _ _ _ =>
    if core.format = some "binary" then some true
    else if core.type = some "array" then
      match items with
      | some (.node icore _ _ _ _ _ _) => some (icore.format == some "binary")
      | _ => some false
    else some false
termination_by s => (keysNotIn doc visited, sizeOf s)
decreasing_by
  rename_i r
  exact Prod.Lex.left _ _ (keysNotIn_lt doc visited r t hl hv)

/-- `ToolGenerator.enhanceEnumDescription`. -/
def enhanceEnumDescription (description : Option String) (enumValues : List JValue) : String :=
  let enumDesc := "Allowed values: " ++
    String.intercalate ", " (enumValues.map (fun v => "'" ++ jsToString v ++ "'"))
  match description with
  | some d => if d = "" then enumDesc else d ++ "\n\n" ++ enumDesc
  | none => enumDesc

/-- `ToolGenerator.enhanceCompositionDescription`. -/
def enhanceCompositionDescription (description : Option String) (t : String) : String :=
  let compositionDesc := "Schema supports " ++ t ++ " the following options"
  match description with
  | some d => if d = "" then compositionDesc else d ++ "\n\n" ++ compositionDesc
  | none => compositionDesc

/-- Whether a resolved schema's items carry `format: binary`
(`schema.items?.format === 'binary'`). -/
def Resolved.itemsBinary (r : Resolved) : Bool :=
  match r.items with
  | some it => it.format == some "binary"
  | none => false

/-- `ToolGenerator.transformFileUploadSchema` (the `fieldName` argument is
unused in the source body and kept for arity fidelity). -/
def transformFileUploadSchema (schema : Resolved) (_fieldName : String) : Resolved :=
  if schema.type = "array" && schema.itemsBinary then
    .mk { type := "array",
          description := some ("Array of file paths to upload. " ++ (schema.description.getD "")) }
      none none
      (some (.mk { type := "string", description := some "Absolute file path to upload" }
        none none none none none none))
      none none none
  else if schema.format = some "binary" then
    .mk { type := "string",
          description := some ("Absolute file path to upload. " ++ (schema.description.getD "")) }
      none none none none none none
  else schema

/-- An optional string under JavaScript truthiness (`if (s) ...` copies only
a non-empty string). -/
def truthyOptStr : Option String → Option String
  | some s => if s = "" then none else some s
  | none => none

/-- The placeholder returned on a detected reference cycle. -/
def circularPlaceholder (r : String) : Resolved :=
  .mk { type := "object", description := some ("Circular reference detected: " ++ r) }
    none (some (Sum.inl true)) none none none none

/-- The placeholder returned for an unresolvable reference. -/
def missingRefPlaceholder (r : String) : Resolved :=
  .mk { type := "object", description := some ("Referenced schema: " ++ r) }
    none (some (Sum.inl true)) none none none none

/-- Base `type` computation of `resolveSchema`
(`schema.type || (schema.properties ? 'object' : 'string')`, with JavaScript
truthiness on the declared type string). -/
def nodeBaseType (core : RawCore) (props : Option (List (String × RawSchema))) : String :=
  match core.type with
  | some t => if t = "" then (if props.isSome then "object" else "string") else t
  | none => if props.isSome then "object" else "string"

/-- Field assembly of `resolveSchema`'s non-reference case, applied to the
already-resolved nested parts.  Mirrors the source's write order: description
from the raw description, then enum enrichment, then one composition clause
per present composition list; the `if (!resolved.type) resolved.type =
'object'` guard of each composition block is kept literally (it can never
fire, because the base type is always a non-empty string — that is the C4
finding). -/
def assembleResolvedNode (core : RawCore)
    (props : Option (List (String × RawSchema)))
    (hasOneOf hasAnyOf hasAllOf : Bool)
    (rprops : Option (List (String × Resolved)))
    (raddl : Option (Sum Bool Resolved))
    (ritems : Option Resolved)
    (roneOf ranyOf rallOf : Option (List Resolved)) : Resolved :=
  let rty := nodeBaseType core props
  let d0 : Option String := truthyOptStr core.description
  let d1 : Option String :=
    match core.enum with
    | some vs => some (enhanceEnumDescription d0 vs)
    | none => d0
  let d2 := if hasOneOf then some (enhanceCompositionDescription d1 "one of") else d1
  let ty2 := if hasOneOf then (if rty = "" then "object" else rty) else rty
  let d3 := if hasAnyOf then some (enhanceCompositionDescription d2 "any of") else d2
  let ty3 := if hasAnyOf then (if ty2 = "" then "object" else ty2) else ty2
  let d4 := if hasAllOf then some (enhanceCompositionDescription d3 "all of") else d3
  let ty4 := if hasAllOf then (if ty3 = "" then "object" else ty3) else ty3
  .mk
    { type := ty4
      description := d4
      exampleVal := core.exampleVal
      defaultVal := core.defaultVal
      minimum := core.minimum
      maximum := core.maximum
      minLength := core.minLength
      maxLength := core.maxLength
      pattern := truthyOptStr core.pattern
      format := truthyOptStr core.format
      nullable := if core.nullable = some true then some true else none
      enum := core.enum
      required := core.required }
    rprops raddl ritems roneOf ranyOf rallOf

mutual

/-- `ToolGenerator.resolveSchema`.  `stack` models `this.resolutionStack`
(pushed before and popped after each reference target resolution, hence a
parameter here).  The result is `none` exactly when the source diverges,
which can happen only inside `isFileUploadSchema` (see there); every other
path produces `some`. -/
def resolveSchema (doc : SchemaDoc) (stack : List String) : RawSchema → Option Resolved
  | .ref r =>
    if hmem : r ∈ stack then some (circularPlaceholder r)
    else
      match hl : resolveReference doc r with
      | some t => resolveSchema doc (r :: stack) t
      | none => some (missingRefPlaceholder r)
  | .node core props addl items oneOfL anyOfL allOfL => do
    let rprops ← resolvePropsOpt doc stack props
    let raddl ← resolveAddlOpt doc stack addl
    let ritems ← resolveItemsOpt doc stack (nodeBaseType core props) items
    let roneOf ← resolveBranchesOpt doc stack oneOfL
    let ranyOf ← resolveBranchesOpt doc stack anyOfL
    let rallOf ← resolveBranchesOpt doc stack allOfL
    pure (assembleResolvedNode core props oneOfL.isSome anyOfL.isSome allOfL.isSome
      rprops raddl ritems roneOf ranyOf rallOf)
termination_by s => (keysNotIn doc stack, sizeOf s)
decreasing_by
  · rename_i r
    exact Prod.Lex.left _ _ (keysNotIn_lt doc stack r t hl hmem)
  all_goals apply Prod.Lex.right
  all_goals first
  | (simp; omega)
  | simp

/-- The `schema.properties` block of `resolveSchema` (absent properties
resolve to an absent field). -/
def resolvePropsOpt (doc : SchemaDoc) (stack : List String) :
    Option (List (String × RawSchema)) → Option (Option (List (String × Resolved)))
  | none => some none
  | some ps => (resolvePropsList doc stack ps).map some
termination_by o => (keysNotIn doc stack, sizeOf o)
decreasing_by
  apply Prod.Lex.right
  first
  | (simp; omega)
  | simp

/-- The `schema.additionalProperties` block of `resolveSchema`: booleans pass
through, schema-valued additional properties resolve recursively. -/
def resolveAddlOpt (doc : SchemaDoc) (stack : List String) :
    Option (Sum Bool RawSchema) → Option (Option (Sum Bool Resolved))
  | none => some none
  | some (Sum.inl b) => some (some (Sum.inl b))
  | some (Sum.inr s) => (resolveSchema doc stack s).map (fun rs => some (Sum.inr rs))
termination_by o => (keysNotIn doc stack, sizeOf o)
decreasing_by
  apply Prod.Lex.right
  first
  | (simp; omega)
  | simp

/-- The `items` block of `resolveSchema`: items resolve only when the
already-computed resolved type is `array` and items are present. -/
def resolveItemsOpt (doc : SchemaDoc) (stack : List String) (rty : String) :
    Option RawSchema → Option (Option Resolved)
  | none => some none
  | some i =>
    if rty = "array" then (resolveSchema doc stack i).map some
    else some none
termination_by o => (keysNotIn doc stack, sizeOf o)
decreasing_by
  apply Prod.Lex.right
  first
  | (simp; omega)
  | simp

/-- A `oneOf`/`anyOf`/`allOf` block of `resolveSchema` (absent list resolves
to an absent field). -/
def resolveBranchesOpt (doc : SchemaDoc) (stack : List String) :
    Option (List RawSchema) → Option (Option (List Resolved))
  | none => some none
  | some bs => (resolveSchemaList doc stack bs).map some
termination_by o => (keysNotIn doc stack, sizeOf o)
decreasing_by
  apply Prod.Lex.right
  first
  | (simp; omega)
  | simp

/-- The `schema.properties` loop of `resolveSchema`: resolve each property,
then replace it by the file-path transformation when the file-upload check
classifies the raw property schema as a file field. -/
def resolvePropsList (doc : SchemaDoc) (stack : List String) :
    List (String × RawSchema) → Option (List (String × Resolved))
  | [] => some []
  | (k, p) :: ps => do
    let rp ← resolveSchema doc stack p
    let fl ← isFileUploadSchema doc [] p
    let rest ← resolvePropsList doc stack ps
    pure ((k, if fl then transformFileUploadSchema rp k else rp) :: rest)
termination_by ps => (keysNotIn doc stack, sizeOf ps)
decreasing_by
  all_goals apply Prod.Lex.right
  all_goals first
  | (simp; omega)
  | simp

/-- The `oneOf`/`anyOf`/`allOf` branch loop of `resolveSchema`
(`schema.oneOf.map(s => this.resolveSchema(s))`). -/
def resolveSchemaList (doc : SchemaDoc) (stack : List String) :
    List RawSchema → Option (List Resolved)
  | [] => some []
  | b :: bs => do
    let r ← resolveSchema doc stack b
    let rs ← resolveSchemaList doc stack bs
    pure (r :: rs)
termination_by bs => (keysNotIn doc stack, sizeOf bs)
decreasing_by
  all_goals apply Prod.Lex.right
  all_goals first
  | (simp; omega)
  | simp

end

end OpenapiMcp

namespace OpenapiMcp

/-- Parameter location (`param.in`); `cookie` is the unsupported location. -/
inductive ParamLoc where
  | path
  | query
  | header
  | cookie
  deriving DecidableEq, Repr

/-- The lowercase location string (the literal `param.in` value). -/
def ParamLoc.name : ParamLoc → String
  | .path => "path"
  | .query => "query"
  | .header => "header"
  | .cookie => "cookie"

/-- The capitalized location
(`param.in.charAt(0).toUpperCase() + param.in.slice(1)`). -/
def ParamLoc.capName : ParamLoc → String
  | .path => "Path"
  | .query => "Query"
  | .header => "Header"
  | .cookie => "Cookie"

/-- An `OpenAPIV3.ParameterObject` as consumed by both the tool generator and
the API client (`in` is a Lean keyword, hence `loc`).  `required` is a plain
Bool because the source only tests it for truthiness. -/
structure Param where
  name : String
  loc : ParamLoc
  required : Bool := false
  description : Option String := none
  schema : Option RawSchema := none
  deriving Repr

/-- An `OpenAPIV3.RequestBodyObject`: content maps a media type to its
optional schema (`MediaTypeObject.schema`); `required` keeps its tri-state
because the source tests `requestBody.required !== false`. -/
structure RequestBody where
  description : Option String := none
  required : Option Bool := none
  content : List (String × Option RawSchema) := []
  deriving Repr

/-- JavaScript object-property assignment on an association list: replaces
the value at an existing key in place, otherwise appends the new key. -/
def upsert {α : Type} : List (String × α) → String → α → List (String × α)
  | [], k, v => [(k, v)]
  | (k', v') :: rest, k, v =>
    if k' = k then (k, v) :: rest else (k', v') :: upsert rest k v

/-- Code-unit comparison of strings (models `a.localeCompare(b) <= 0` for the
ASCII media-type strings in scope), kernel-computable. -/
def strLeb (a b : String) : Bool :=
  go a.data b.data
where
  go : List Char → List Char → Bool
    | [], _ => true
    | _ :: _, [] => false
    | x :: xs, y :: ys => if x < y then true else if y < x then false else go xs ys

/-- The fixed content-type priority list of
`ToolGenerator.getSupportedContentTypes`. -/
def ctPriorities : List String :=
  ["application/json", "application/xml", "text/xml",
   "application/x-www-form-urlencoded", "multipart/form-data", "text/plain"]

/-- Priority rank: the index in the priority list, 6 (i.e. last) when the
content type is not prioritized (the comparator's `-1` handling). -/
def ctRank (ct : String) : Nat := ctPriorities.indexOf ct

/-- The total order induced by the comparator of `getSupportedContentTypes`:
ascending rank, ties (both unprioritized) broken by `localeCompare`. -/
def ctLEb (a b : String) : Bool :=
  decide (ctRank a < ctRank b) || (decide (ctRank a = ctRank b) && strLeb a b)

/-- `ToolGenerator.getSupportedContentTypes` on the list of declared content
types (`Object.keys(content)`): sort by the comparator.  A JavaScript
`Array.prototype.sort` with a consistent comparator produces a sorted
permutation; with the keys distinct, the sorted permutation is unique, so any
correct sort models it. -/
def getSupportedContentTypes (content : List (String × Option RawSchema)) : List String :=
  List.insertionSort (fun a b => ctLEb a b = true) (content.map Prod.fst)

/-- `ToolGenerator.createRequestBodyDescription`. -/
def createRequestBodyDescription (requestBody : RequestBody)
    (primaryContentType : String) (allContentTypes : List String) : String :=
  let base :=
    match requestBody.description with
    | some d => if d = "" then "Request body" else d
    | none => "Request body"
  if allContentTypes.length > 1 then
    base ++ " (supports: " ++ String.intercalate ", " allContentTypes ++ ")"
  else
    base ++ " (" ++ primaryContentType ++ ")"

/-- `ToolGenerator.generateParameterDescription`. -/
def generateParameterDescription (p : Param) : String :=
  let baseDesc := p.loc.capName ++ " parameter"
  if p.required then baseDesc ++ " (required)" else baseDesc

/-- `ToolGenerator.resolveParameterSchema`: resolve the declared schema, or
fall back to a plain string schema. -/
def resolveParameterSchema (doc : SchemaDoc) (p : Param) : Option Resolved :=
  match p.schema with
  | some s => resolveSchema doc [] s
  | none =>
    some (.mk { type := "string", description := some (p.loc.name ++ " parameter") }
      none none none none none none)

/-- A resolved schema with its description overridden
(`{...paramSchema, description: ...}`). -/
def Resolved.withDescription : Resolved → String → Resolved
  | .mk c p a i o an al, d => .mk { c with description := some d } p a i o an al

/-- The description a tool property gets for a parameter:
`param.description || generateParameterDescription(param)`. -/
def toolParamDescription (p : Param) : String :=
  match p.description with
  | some d => if d = "" then generateParameterDescription p else d
  | none => generateParameterDescription p

/-- The parameter loop of `ToolGenerator.createToolFromOperation`: build the
`properties` object, skipping `cookie` parameters.  `none` propagates a
divergence inside schema resolution. -/
def toolParamProps (doc : SchemaDoc) :
    List Param → List (String × Resolved) → Option (List (String × Resolved))
  | [], acc => some acc
  | p :: ps, acc =>
    if p.loc = .cookie then toolParamProps doc ps acc
    else do
      let rs ← resolveParameterSchema doc p
      toolParamProps doc ps (upsert acc p.name (rs.withDescription (toolParamDescription p)))

/-- The `required` accumulation of the same loop (cookie parameters are
skipped before the `required` check). -/
def toolRequiredParams : List Param → List String
  | [] => []
  | p :: ps =>
    if p.loc = .cookie then toolRequiredParams ps
    else if p.required then p.name :: toolRequiredParams ps
    else toolRequiredParams ps

/-- An `OpenAPIV3.OperationObject` (the fields the embedded code reads). -/
structure Operation where
  summary : Option String := none
  description : Option String := none
  tags : Option (List String) := none
  parameters : List Param := []
  requestBody : Option RequestBody := none
  responses : List String := []
  deriving Repr

/-- `ToolGenerator.createToolDescription`. -/
def createToolDescription (operation : Operation) (method path : String) : String :=
  let summary :=
    match operation.summary with
    | some s => if jsTrim s = "" then none else some (jsTrim s)
    | none => none
  let descriptionText :=
    match operation.description with
    | some s => if jsTrim s = "" then none else some (jsTrim s)
    | none => none
  let tags :=
    match operation.tags with
    | some ts => if ts.length > 0 then some (String.intercalate ", " ts) else none
    | none => none
  let base :=
    match summary, descriptionText with
    | some s, some d => if d ≠ s then s ++ "\n\n" ++ d else s
    | some s, none => s
    | none, some d => d
    | none, none => method.toUpper ++ " " ++ path
  let withTags :=
    match tags with
    | some t => base ++ "\n\nTags: " ++ t
    | none => base
  let successResponses := operation.responses.filter (fun code => code.startsWith "2")
  if successResponses.length > 0 then
    withTags ++ "\n\nReturns: " ++ String.intercalate ", " successResponses
  else withTags

/-- The generated tool's input schema
(`{type: 'object', properties, required?, additionalProperties: false}`). -/
structure ToolInputSchema where
  properties : List (String × Resolved)
  required : Option (List String)
  deriving Repr

/-- A generated MCP tool. -/
structure Tool where
  name : String
  description : String
  inputSchema : ToolInputSchema
  deriving Repr

/-- `ToolGenerator.createToolFromOperation`.  `none` propagates a divergence
inside schema resolution; otherwise the produced tool matches the source's
output object. -/
def createToolFromOperation (doc : SchemaDoc) (operationId method path : String)
    (operation : Operation) (pathParameters : List Param) : Option Tool := do
  let allParameters := pathParameters ++ operation.parameters
  let paramProps ← toolParamProps doc allParameters []
  let required0 := toolRequiredParams allParameters
  let (properties, required) ←
    match operation.requestBody with
    | none => pure (paramProps, required0)
    | some requestBody =>
        let supportedContentTypes := getSupportedContentTypes requestBody.content
        match supportedContentTypes with
        | [] => pure (paramProps, required0)
        | primaryContentType :: _ =>
          match List.lookup primaryContentType requestBody.content with
          | some (some contentSchema) => do
            let bodySchema ← resolveSchema doc [] contentSchema
            let baseDescription :=
              createRequestBodyDescription requestBody primaryContentType supportedContentTypes
            let fullDescription :=
              match bodySchema.description with
              | some d => if d = "" then baseDescription else baseDescription ++ "\n\n" ++ d
              | none => baseDescription
            let properties := upsert paramProps "body" (bodySchema.withDescription fullDescription)
            let required :=
              if requestBody.required ≠ some false then required0 ++ ["body"] else required0
            pure (properties, required)
          | _ => pure (paramProps, required0)
  pure
    { name := operationId
      description := createToolDescription operation method path
      inputSchema :=
        { properties := properties
          required := if required.length > 0 then some required else none } }

end OpenapiMcp

namespace OpenapiMcp

/-- ASCII lowercasing (models `String.prototype.toLowerCase`, which agrees on
the ASCII strings compared by the source). -/
def charLower (c : Char) : Char :=
  if 'A' ≤ c && c ≤ 'Z' then Char.ofNat (c.toNat + 32) else c

/-- ASCII `toLowerCase`. -/
def jsToLower (s : String) : String := ⟨s.data.map charLower⟩

/-- Substring test on character lists (models `String.prototype.includes`). -/
def listContainsSub (hay needle : List Char) : Bool :=
  if needle.isPrefixOf hay then true
  else
    match hay with
    | [] => false
    | _ :: t => listContainsSub t needle

/-- `hay.includes(needle)`. -/
def containsSubstr (hay needle : String) : Bool :=
  listContainsSub hay.data needle.data

/-- JSON whitespace. -/
def jsonWs (c : Char) : Bool := c = ' ' || c = '\t' || c = '\n' || c = '\r'

/-- Skip JSON whitespace. -/
def skipWs (cs : List Char) : List Char := cs.dropWhile jsonWs

/-- Parse exactly four hex digits (for `\u` escapes). -/
def parseHex4 : List Char → Option (Nat × List Char)
  | a :: b :: c :: d :: rest => do
    let va ← radixDigitVal 16 a
    let vb ← radixDigitVal 16 b
    let vc ← radixDigitVal 16 c
    let vd ← radixDigitVal 16 d
    pure (((va * 16 + vb) * 16 + vc) * 16 + vd, rest)
  | _ => none

theorem parseHex4_len {cs : List Char} {n : Nat} {rest : List Char}
    (h : parseHex4 cs = some (n, rest)) : rest.length + 4 = cs.length := by
  match cs with
  | [] => simp [parseHex4] at h
  | [a] => simp [parseHex4] at h
  | [a, b] => simp [parseHex4] at h
  | [a, b, c] => simp [parseHex4] at h
  | a :: b :: c :: d :: r =>
    simp only [parseHex4, Option.bind_eq_bind, Option.bind_eq_some, Option.pure_def,
      Option.some.injEq] at h
    obtain ⟨_, _, _, _, _, _, _, _, heq⟩ := h
    cases heq
    simp

/-- Decode one JSON escape after a backslash: the simple escapes leave the
rest unchanged, `\u` consumes four hex digits. -/
def unescapeJson (e : Char) (rest : List Char) : Option (Char × List Char) :=
  if e = '"' then some ('"', rest)
  else if e = '\\' then some ('\\', rest)
  else if e = '/' then some ('/', rest)
  else if e = 'b' then some ('\x08', rest)
  else if e = 'f' then some ('\x0c', rest)
  else if e = 'n' then some ('\n', rest)
  else if e = 'r' then some ('\r', rest)
  else if e = 't' then some ('\t', rest)
  else if e = 'u' then (parseHex4 rest).map (fun p => (Char.ofNat p.1, p.2))
  else none

theorem unescapeJson_len {e : Char} {rest : List Char} {c : Char} {rest' : List Char}
    (h : unescapeJson e rest = some (c, rest')) : rest'.length ≤ rest.length := by
  unfold unescapeJson at h
  split_ifs at h
  · cases h; exact Nat.le_refl _
  · cases h; exact Nat.le_refl _
  · cases h; exact Nat.le_refl _
  · cases h; exact Nat.le_refl _
  · cases h; exact Nat.le_refl _
  · cases h; exact Nat.le_refl _
  · cases h; exact Nat.le_refl _
  · cases h; exact Nat.le_refl _
  · cases hh : parseHex4 rest with
    | none => rw [hh] at h; exact Option.noConfusion h
    | some p =>
      obtain ⟨n, r'⟩ := p
      rw [hh] at h
      simp at h
      obtain ⟨-, h2⟩ := h
      subst h2
      have := parseHex4_len hh
      omega

/-- Parse a JSON string body after the opening quote, handling the JSON
escapes (`\uXXXX` is mapped through `Char.ofNat`; surrogate pairing is not
recombined, which is exact for the BMP scalars used here). -/
def parseStrBody : List Char → Option (List Char × List Char)
  | [] => none
  | '"' :: rest => some ([], rest)
  | '\\' :: e :: rest =>
    (match hesc : unescapeJson e rest with
     | some (c, rest') => (parseStrBody rest').map (fun p => (c :: p.1, p.2))
     | none => none)
  | c :: rest =>
    if c.toNat < 0x20 then none
    else (parseStrBody rest).map (fun p => (c :: p.1, p.2))
termination_by cs => cs.length
decreasing_by
  · have := unescapeJson_len hesc
    simp
    omega
  · first
    | (simp; omega)
    | simp

/-- Parse a JSON number (JSON grammar: no leading `+`, no bare `.`, no
leading zeros), returning the value and the unconsumed rest. -/
def parseJsonNumber (cs : List Char) : Option (ℚ × List Char) := do
  let (neg, cs1) :=
    match cs with
    | '-' :: rest => (true, rest)
    | rest => (false, rest)
  let (ip, cs2) := takeDigits cs1
  match ip with
  | [] => none
  | '0' :: _ :: _ => none
  | _ => do
    let (fp, cs3) ←
      match cs2 with
      | '.' :: rest =>
        let (fp, r) := takeDigits rest
        if fp.isEmpty then none else some (fp, r)
      | _ => some (([] : List Char), cs2)
    let (ex, cs4) ←
      match cs3 with
      | 'e' :: rest => parseExpPart rest
      | 'E' :: rest => parseExpPart rest
      | _ => some ((0 : ℤ), cs3)
    let mant : ℚ := (digitsToNat ip : ℚ) + (digitsToNat fp : ℚ) / ((10 : ℚ) ^ fp.length)
    let v : ℚ := mant * ((10 : ℚ) ^ (ex : ℤ))
    pure (if neg then -v else v, cs4)
where
  parseExpPart (rest : List Char) : Option (ℤ × List Char) := do
    let (negE, ds0) :=
      match rest with
      | '+' :: r => (false, r)
      | '-' :: r => (true, r)
      | r => (false, r)
    let (ds, r) := takeDigits ds0
    if ds.isEmpty then none
    else pure ((if negE then -(digitsToNat ds : ℤ) else (digitsToNat ds : ℤ)), r)

mutual

/-- Fuel-driven JSON value parser (models `JSON.parse`; the call site passes
fuel exceeding any possible recursion depth for the input, so fuel exhaustion
is unreachable). -/
def parseJsonValue : Nat → List Char → Option (JValue × List Char)
  | 0, _ => none
  | fuel + 1, cs =>
    match skipWs cs with
    | 'n' :: 'u' :: 'l' :: 'l' :: rest => some (.null, rest)
    | 't' :: 'r' :: 'u' :: 'e' :: rest => some (.bool true, rest)
    | 'f' :: 'a' :: 'l' :: 's' :: 'e' :: rest => some (.bool false, rest)
    | '"' :: rest => (parseStrBody rest).map (fun p => (.str ⟨p.1⟩, p.2))
    | '[' :: rest =>
      (match skipWs rest with
       | ']' :: rest' => some (.arr [], rest')
       | cs' => (parseJsonElems fuel cs').map (fun p => (.arr p.1, p.2)))
    | '{' :: rest =>
      (match skipWs rest with
       | '}' :: rest' => some (.obj [], rest')
       | cs' => (parseJsonMembers fuel cs').map (fun p => (.obj p.1, p.2)))
    | cs' => (parseJsonNumber cs').map (fun p => (.num (.fin p.1), p.2))

/-- Array elements: `value (ws , ws value)* ws ]`. -/
def parseJsonElems : Nat → List Char → Option (List JValue × List Char)
  | 0, _ => none
  | fuel + 1, cs => do
    let (v, rest) ← parseJsonValue fuel cs
    match skipWs rest with
    | ',' :: rest' => (parseJsonElems fuel rest').map (fun p => (v :: p.1, p.2))
    | ']' :: rest' => some ([v], rest')
    | _ => none

/-- Object members: `ws "key" ws : value (ws , ...)* ws }`. -/
def parseJsonMembers : Nat → List Char → Option (List (String × JValue) × List Char)
  | 0, _ => none
  | fuel + 1, cs => do
    match skipWs cs with
    | '"' :: rest => do
      let (k, rest1) ← parseStrBody rest
      match skipWs rest1 with
      | ':' :: rest2 => do
        let (v, rest3) ← parseJsonValue fuel rest2
        match skipWs rest3 with
        | ',' :: rest4 => (parseJsonMembers fuel rest4).map (fun p => ((⟨k⟩, v) :: p.1, p.2))
        | '}' :: rest4 => some ([(⟨k⟩, v)], rest4)
        | _ => none
      | _ => none
    | _ => none

end

/-- `JSON.parse(s)`: parse one value, allow trailing whitespace, fail on any
other trailing input; `none` models the thrown `SyntaxError`. -/
def jsonParse (s : String) : Option JValue := do
  let (v, rest) ← parseJsonValue (2 * s.length + 4) s.data
  if (skipWs rest).isEmpty then some v else none

/-- JSON string escaping for `JSON.stringify`. -/
def escapeJsonChar (c : Char) : List Char :=
  if c = '"' then ['\\', '"']
  else if c = '\\' then ['\\', '\\']
  else if c = '\n' then ['\\', 'n']
  else if c = '\r' then ['\\', 'r']
  else if c = '\t' then ['\\', 't']
  else if c = '\x08' then ['\\', 'b']
  else if c = '\x0c' then ['\\', 'f']
  else if c.toNat < 0x20 then
    ['\\', 'u', '0', '0', hexDigitChar (c.toNat / 16), hexDigitChar (c.toNat % 16)]
  else [c]

/-- Quoted, escaped JSON string literal. -/
def jsonQuote (s : String) : String :=
  "\"" ++ ⟨s.data.flatMap escapeJsonChar⟩ ++ "\""

mutual

/-- `JSON.stringify(value)` (non-finite numbers serialize as `null`). -/
def jsonStringify : JValue → String
  | .null => "null"
  | .bool b => cond b "true" "false"
  | .num (.fin q) => qToDecString q
  | .num _ => "null"
  | .str s => jsonQuote s
  | .arr xs => "[" ++ String.intercalate "," (jsonStringifyList xs) ++ "]"
  | .obj fs => "\x7b" ++ String.intercalate "," (jsonStringifyMembers fs) ++ "\x7d"

def jsonStringifyList : List JValue → List String
  | [] => []
  | v :: vs => jsonStringify v :: jsonStringifyList vs

def jsonStringifyMembers : List (String × JValue) → List String
  | [] => []
  | (k, v) :: fs => (jsonQuote k ++ ":" ++ jsonStringify v) :: jsonStringifyMembers fs

end

/-- Characters `encodeURIComponent` leaves unescaped. -/
def isUnescapedURIChar (c : Char) : Bool :=
  ('A' ≤ c && c ≤ 'Z') || ('a' ≤ c && c ≤ 'z') || ('0' ≤ c && c ≤ '9') ||
  c ∈ ['-', '_', '.', '!', '~', '*', '\'', '(', ')']

/-- Percent-encode one byte (uppercase hex). -/
def percentByte (n : Nat) : String :=
  "%" ++ String.singleton (hexDigitChar (n / 16 % 16)) ++ String.singleton (hexDigitChar (n % 16))

/-- `encodeURIComponent`: unreserved characters pass through, everything else
is percent-encoded per UTF-8 byte. -/
def encodeURIComponent (s : String) : String :=
  s.data.foldl
    (fun acc c =>
      if isUnescapedURIChar c then acc ++ String.singleton c
      else acc ++ String.join ((String.utf8EncodeChar c).map (fun b => percentByte b.toNat)))
    ""

/-- Characters the `application/x-www-form-urlencoded` serializer leaves
unescaped. -/
def isFormUnescapedChar (c : Char) : Bool :=
  ('A' ≤ c && c ≤ 'Z') || ('a' ≤ c && c ≤ 'z') || ('0' ≤ c && c ≤ '9') ||
  c ∈ ['*', '-', '.', '_']

/-- One component of `URLSearchParams.toString()` (space becomes `+`). -/
def formEncodeStr (s : String) : String :=
  s.data.foldl
    (fun acc c =>
      if c = ' ' then acc ++ "+"
      else if isFormUnescapedChar c then acc ++ String.singleton c
      else acc ++ String.join ((String.utf8EncodeChar c).map (fun b => percentByte b.toNat)))
    ""

/-- `URLSearchParams` serialization of appended key/value pairs. -/
def urlSearchParamsToString (kvs : List (String × String)) : String :=
  String.intercalate "&" (kvs.map (fun kv => formEncodeStr kv.1 ++ "=" ++ formEncodeStr kv.2))

/-- `String.prototype.replace` with a string pattern: replace the first
occurrence only (insertion at position 0 for the empty pattern, like JS). -/
def replaceFirst (s pat sub : String) : String :=
  go [] s.data
where
  go (pre rest : List Char) : String :=
    if pat.data.isPrefixOf rest then ⟨pre⟩ ++ sub ++ ⟨rest.drop pat.length⟩
    else
      match hr : rest with
      | [] => ⟨pre⟩
      | c :: cs => go (pre ++ [c]) cs
  termination_by rest.length

/-- `path.basename`: the last path segment, ignoring trailing slashes. -/
def basename (p : String) : String :=
  let cs := p.data.reverse.dropWhile (· = '/')
  ⟨(cs.takeWhile (· ≠ '/')).reverse⟩

/-- `path.extname`: from the last `.` of the base name, unless it is the
first character of the base name. -/
def extname (p : String) : String :=
  let b := (basename p).data
  let revb := b.reverse
  if revb.contains '.' then
    let pre := revb.takeWhile (· ≠ '.')
    if b.length - pre.length - 1 = 0 then ""
    else ⟨'.' :: pre.reverse⟩
  else ""

/-- The fixed extension-to-MIME table of `APIClient.getMimeType`. -/
def mimeTypes : List (String × String) :=
  [(".jpg", "image/jpeg"), (".jpeg", "image/jpeg"), (".png", "image/png"),
   (".gif", "image/gif"), (".mp4", "video/mp4"), (".webm", "video/webm"),
   (".mp3", "audio/mpeg"), (".wav", "audio/wav"), (".pdf", "application/pdf"),
   (".json", "application/json"), (".xml", "text/xml"), (".txt", "text/plain")]

/-- `APIClient.getMimeType`. -/
def getMimeType (filePath : String) : String :=
  (List.lookup (jsToLower (extname filePath)) mimeTypes).getD "application/octet-stream"

end OpenapiMcp

namespace OpenapiMcp

/-- The failure taxonomy of `APIClient.executeOperation` and its helpers (the
source throws `Error`s; the constructors carry the data interpolated into the
corresponding messages, see `errMessage`). -/
inductive ExecErr where
  | operationNotFound (operationId : String)
  | missingRequiredParams (entries : List String)
  | invalidParameterType (name : String) (expected : String) (got : String)
  | bodyJsonParseError (body : String)
  | requestBodyNotObject
  | fileNotFound (path : String)
  | notAFile (path : String)
  | invalidFilePathType (got : String)
  deriving DecidableEq, Repr

/-- The message text of each failure, as thrown by the source
(`bodyJsonParseError` stands for the engine-specific `SyntaxError` message of
`JSON.parse`). -/
def errMessage : ExecErr → String
  | .operationNotFound operationId => "Operation " ++ operationId ++ " not found"
  | .missingRequiredParams entries =>
    "Missing required parameters: " ++ String.intercalate ", " entries
  | .invalidParameterType name expected got =>
    "Parameter " ++ name ++ " must be " ++ expected ++ ", got: " ++ got
  | .bodyJsonParseError _ => "Unexpected token in JSON"
  | .requestBodyNotObject => "Request body must be an object for multipart/form-data"
  | .fileNotFound path => "File not found: " ++ path
  | .notAFile path => "Path is not a file: " ++ path
  | .invalidFilePathType got => "File path must be a string, got: " ++ got

/-- The raw `schema.type` read by `processParameterValue` (a `$ref` object
has no `type` field). -/
def rawSchemaType : RawSchema → Option String
  | .ref _ => none
  | .node core _ _ _ _ _ _ => core.type

/-- `APIClient.processParameterValue`: type coercion of a present argument by
the declared raw parameter schema type. -/
def processParameterValue (p : Param) (value : JValue) : Except ExecErr JValue :=
  match p.schema with
  | none => .ok value
  | some schema =>
    match rawSchemaType schema with
    | some "integer" | some "number" =>
      let num := jsToNumber value
      if num = .nan then .error (.invalidParameterType p.name "a valid number" (jsToString value))
      else .ok (.num num)
    | some "boolean" =>
      (match value with
       | .bool b => .ok (.bool b)
       | .str s =>
         if jsToLower s = "true" then .ok (.bool true)
         else if jsToLower s = "false" then .ok (.bool false)
         else .error (.invalidParameterType p.name "a boolean" (jsToString value))
       | _ => .error (.invalidParameterType p.name "a boolean" (jsToString value)))
    | some "array" =>
      (match value with
       | .arr xs => .ok (.arr xs)
       | .str s =>
         (match jsonParse s with
          | some j => .ok j
          | none => .ok (.arr ((s.splitOn ",").map (fun v => .str (jsTrim v)))))
       | _ => .error (.invalidParameterType p.name "an array" (jsToString value)))
    | _ => .ok (.str (jsToString value))

/-- The state mutated by the parameter loop of `executeOperation`: the URL
being substituted, the query-parameter object, the header object, and the
accumulated missing-required-parameter list. -/
structure ReqState where
  url : String
  queryParams : List (String × JValue) := []
  headers : List (String × String) := []
  missing : List String := []
  deriving Repr

/-- The `switch (param.in)` routing of a coerced parameter value: path
substitution with URL encoding, query or header assignment; a `cookie`
parameter matches no case and is dropped. -/
def routeParam (p : Param) (processedValue : JValue) (st : ReqState) : ReqState :=
  match p.loc with
  | .path =>
    { st with
      url := replaceFirst st.url ("\x7b" ++ p.name ++ "\x7d")
        (encodeURIComponent (jsToString processedValue)) }
  | .query => { st with queryParams := upsert st.queryParams p.name processedValue }
  | .header => { st with headers := upsert st.headers p.name (jsToString processedValue) }
  | .cookie => st

/-- The formatted entry a missing required parameter contributes to the batch
error (`` `${param.name} (${param.in})` ``). -/
def missingEntry (p : Param) : String := p.name ++ " (" ++ p.loc.name ++ ")"

/-- One iteration of the parameter loop of `executeOperation`: an absent or
`null` argument is skipped (recorded when required), a present one is coerced
(which can fail) and routed. -/
def paramStep (args : String → Option JValue) (st : ReqState) (p : Param) :
    Except ExecErr ReqState :=
  match args p.name with
  | none | some .null =>
    .ok (if p.required then { st with missing := st.missing ++ [missingEntry p] } else st)
  | some v => (processParameterValue p v).map (fun pv => routeParam p pv st)

/-- The parameter phase of `executeOperation`: run the loop over all
declared parameters, then fail once with the batch of missing required
parameters if any were recorded. -/
def processParams (parameters : List Param) (args : String → Option JValue)
    (url0 : String) : Except ExecErr ReqState := do
  let st ← parameters.foldlM (paramStep args) { url := url0 }
  if st.missing.isEmpty then pure st
  else .error (.missingRequiredParams st.missing)

/-- `APIClient.determineContentType`: an explicitly set (truthy)
`Content-Type` header wins; otherwise the declared content types are probed
in the fixed order json, xml, text/xml, urlencoded, multipart — note: not
`text/plain` — and failing all of those, the first declared content type. -/
def determineContentType (requestBody : RequestBody) (headers : List (String × String)) :
    Option String :=
  let existing :=
    match truthyOptStr (List.lookup "Content-Type" headers) with
    | some ct => some ct
    | none => truthyOptStr (List.lookup "content-type" headers)
  match existing with
  | some ct => some ct
  | none =>
    let contentTypes := requestBody.content.map Prod.fst
    if contentTypes.contains "application/json" then some "application/json"
    else if contentTypes.contains "application/xml" then some "application/xml"
    else if contentTypes.contains "text/xml" then some "text/xml"
    else if contentTypes.contains "application/x-www-form-urlencoded" then
      some "application/x-www-form-urlencoded"
    else if contentTypes.contains "multipart/form-data" then some "multipart/form-data"
    else contentTypes.head?

/-- `Object.entries(value)` for values of JavaScript object type other than
`null`: object fields, or index-keyed array entries. -/
def jsObjectEntries : JValue → Option (List (String × JValue))
  | .obj fs => some fs
  | .arr xs => some (xs.enum.map (fun ie => (toString ie.1, ie.2)))
  | _ => none

/-- One part appended to the outgoing `FormData`: a streamed file (field,
source path, filename, MIME type) or a text field. -/
inductive Part where
  | file (field sourcePath filename contentType : String)
  | text (field content : String)
  deriving DecidableEq, Repr

/-- The serialized request body produced before the HTTP exchange. -/
inductive BodyOut where
  | empty
  | jval (v : JValue)
  | formEncoded (s : String)
  | multipartForm (parts : List OpenapiMcp.Part)
  deriving Repr

end OpenapiMcp

namespace OpenapiMcp

/-- `APIClient.processRequestBody`: JSON bodies parse string input, form
bodies flatten object entries through `URLSearchParams`, everything else
passes through unchanged. -/
def processRequestBody (body : JValue) (contentType : Option String) :
    Except ExecErr BodyOut :=
  match contentType with
  | none => .ok (.jval body)
  | some ct =>
    if ct = "application/json" then
      match body with
      | .str s =>
        (match jsonParse s with
         | some j => .ok (.jval j)
         | none => .error (.bodyJsonParseError s))
      | _ => .ok (.jval body)
    else if ct = "application/x-www-form-urlencoded" then
      match jsObjectEntries body with
      | some entries =>
        .ok (.formEncoded (urlSearchParamsToString
          (entries.map (fun kv => (kv.1, jsToString kv.2)))))
      | none => .ok (.jval body)
    else .ok (.jval body)

/-- `APIClient.isFileField`: binary format, array of binary items, or a
description mentioning a file path (the source falls through to the
description check when the array checks fail). -/
def isFileField : Option RawSchema → Bool
  | none => false
  | some (.ref _) => false
  | some (.node core _ _ items _ _ _) =>
    if core.format = some "binary" then true
    else if core.type = some "array" &&
        (core.format == some "binary" ||
         (match items with
          | some (.node icore _ _ _ _ _ _) => icore.format == some "binary"
          | _ => false)) then true
    else
      let description := jsToLower (core.description.getD "")
      containsSubstr description "file path" || containsSubstr description "filepath"

/-- `APIClient.resolveSchemaReference`: a single pointer dereference for
`#/`-style references (no recursion; on failure the reference object itself
is returned). -/
def resolveSchemaReference (doc : SchemaDoc) (schema : RawSchema) : RawSchema :=
  match schema with
  | .ref r =>
    if "#/".data.isPrefixOf r.data then
      match List.lookup r doc with
      | some t => t
      | none => schema
    else schema
  | _ => schema

/-- `APIClient.getRequestBodySchema`. -/
def getRequestBodySchema (doc : SchemaDoc) (requestBody : RequestBody)
    (contentType : String) : Option RawSchema :=
  match List.lookup contentType requestBody.content with
  | some (some schema) => some (resolveSchemaReference doc schema)
  | _ => none

/-- What the file system holds at a path: nothing, a regular file, or an
existing entry that is not a regular file (`existsSync` / `statSync.isFile`).
`directory` stands for any existing non-regular-file entry. -/
inductive FsEntry where
  | absent
  | regular
  | directory
  deriving DecidableEq, Repr

/-- `APIClient.appendFileToFormData`: validate existence and regularity, then
attach the streamed file under the field name with the path's base name as
filename and the extension-derived MIME type. -/
def appendFileToFormData (fsys : String → FsEntry) (fieldName filePath : String) :
    Except ExecErr Part :=
  if fsys filePath = .absent then .error (.fileNotFound filePath)
  else if fsys filePath ≠ .regular then .error (.notAFile filePath)
  else .ok (.file fieldName filePath (basename filePath) (getMimeType filePath))

/-- One body field of `APIClient.processMultipartFormData`: a truthy value of
a file-classified field is treated as one file path or an array of file
paths; everything else (including every falsy value) is appended as an
ordinary text field (objects JSON-stringified, scalars stringified). -/
def processMultipartEntry (fsys : String → FsEntry)
    (properties : List (String × RawSchema)) (key : String) (value : JValue) :
    Except ExecErr (List Part) :=
  let fieldSchema := List.lookup key properties
  let isFile := isFileField fieldSchema
  if isFile && jsTruthy value then
    match value with
    | .arr filePaths =>
      filePaths.foldlM
        (fun acc fp =>
          match fp with
          | .str s => (appendFileToFormData fsys key s).map (fun part => acc ++ [part])
          | _ => .error (.invalidFilePathType (jsTypeof fp)))
        []
    | .str s => (appendFileToFormData fsys key s).map (fun part => [part])
    | _ => .error (.invalidFilePathType (jsTypeof value))
  else
    match value with
    | .null | .arr _ | .obj _ => .ok [.text key (jsonStringify value)]
    | v => .ok [.text key (jsToString v)]

/-- `APIClient.processMultipartFormData`: reject a non-object body, look up
the multipart schema's properties (one reference step), then process every
body entry in order. -/
def processMultipartFormData (fsys : String → FsEntry) (doc : SchemaDoc)
    (body : JValue) (requestBody : Option RequestBody) : Except ExecErr (List Part) :=
  match jsObjectEntries body with
  | none => .error .requestBodyNotObject
  | some entries =>
    let schema := requestBody.bind (fun rb => getRequestBodySchema doc rb "multipart/form-data")
    let properties :=
      match schema with
      | some (.node _ (some props) _ _ _ _ _) => props
      | _ => []
    entries.foldlM
      (fun acc kv => (processMultipartEntry fsys properties kv.1 kv.2).map (acc ++ ·)) []

/-- `OperationInfo` of the API client: parsed method, path template,
merged parameter list and the raw request body declaration. -/
structure OperationInfo where
  method : String
  path : String
  parameters : List Param := []
  requestBody : Option RequestBody := none
  deriving Repr

/-- The parameter collection of `APIClient.parseOperations`: path-item
parameters followed by operation parameters, with no filtering (in
particular, cookie parameters are kept). -/
def collectOperationParameters (pathItemParameters operationParameters : List Param) :
    List Param :=
  pathItemParameters ++ operationParameters

/-- Everything `executeOperation` assembles before the HTTP exchange. -/
structure RequestPlan where
  method : String
  url : String
  queryParams : List (String × JValue) := []
  headers : List (String × String) := []
  body : BodyOut := .empty
  deriving Repr

/-- `APIClient.executeOperation`, up to (and excluding) the network exchange:
operation lookup, the parameter phase, content-type determination and body
serialization, producing the request that would be issued. -/
def executeOperation (fsys : String → FsEntry) (doc : SchemaDoc) (baseUrl : String)
    (operations : List (String × OperationInfo)) (operationId : String)
    (args : String → Option JValue) : Except ExecErr RequestPlan :=
  match List.lookup operationId operations with
  | none => .error (.operationNotFound operationId)
  | some info => do
    let st ← processParams info.parameters args (baseUrl ++ info.path)
    match info.requestBody, args "body" with
    | some requestBody, some bodyArg =>
      let contentType := determineContentType requestBody st.headers
      if contentType = some "multipart/form-data" then do
        let parts ← processMultipartFormData fsys doc bodyArg (some requestBody)
        pure { method := info.method, url := st.url, queryParams := st.queryParams,
               headers := st.headers.filter
                 (fun kv => kv.1 ≠ "Content-Type" && kv.1 ≠ "content-type"),
               body := .multipartForm parts }
      else do
        let b ← processRequestBody bodyArg contentType
        let headers :=
          match contentType with
          | some ct =>
            if ct ≠ "" && (truthyOptStr (List.lookup "Content-Type" st.headers)).isNone then
              upsert st.headers "Content-Type" ct
            else st.headers
          | none => st.headers
        pure { method := info.method, url := st.url, queryParams := st.queryParams,
               headers := headers, body := b }
    | _, _ =>
      pure { method := info.method, url := st.url, queryParams := st.queryParams,
             headers := st.headers, body := .empty }

end OpenapiMcp

namespace OpenapiMcp

/-! ## Derived notions used by the theorems -/

/-- Whether an argument is treated as absent by the parameter loop
(`value === undefined || value === null`). -/
def isAbsentArg (args : String → Option JValue) (name : String) : Bool :=
  match args name with
  | none => true
  | some .null => true
  | some _ => false

/-- The full list of missing required parameters of a call, in declaration
order, formatted as the batch error reports them. -/
def missingList (parameters : List Param) (args : String → Option JValue) : List String :=
  (parameters.filter (fun p => p.required && isAbsentArg args p.name)).map missingEntry

/-! ## Helper lemmas -/

theorem routeParam_missing (p : Param) (pv : JValue) (st : ReqState) :
    (routeParam p pv st).missing = st.missing := by
  unfold routeParam
  cases hl : p.loc <;> simp [hl]

theorem foldlM_paramStep_ok (args : String → Option JValue) (parameters : List Param)
    (st0 : ReqState)
    (hcoerce : ∀ p ∈ parameters, ∀ v, args p.name = some v → v ≠ .null →
      (processParameterValue p v).isOk = true) :
    ∃ st : ReqState, parameters.foldlM (paramStep args) st0 = .ok st ∧
      st.missing = st0.missing ++ missingList parameters args := by
  induction parameters generalizing st0 with
  | nil => exact ⟨st0, rfl, by simp [missingList]⟩
  | cons p ps ih =>
    have hcoerce' : ∀ q ∈ ps, ∀ v, args q.name = some v → v ≠ .null →
        (processParameterValue q v).isOk = true :=
      fun q hq => hcoerce q (List.mem_cons_of_mem p hq)
    rw [List.foldlM_cons]
    match hv : args p.name with
    | none =>
      have hstep : paramStep args st0 p =
          .ok (if p.required then { st0 with missing := st0.missing ++ [missingEntry p] }
               else st0) := by
        simp [paramStep, hv]
      rw [hstep]
      by_cases hreq : p.required
      · obtain ⟨st, hfold, hmiss⟩ :=
          ih { st0 with missing := st0.missing ++ [missingEntry p] } hcoerce'
        refine ⟨st, by simpa [hreq] using hfold, ?_⟩
        simp [hmiss, missingList, List.filter_cons, hreq, isAbsentArg, hv]
      · obtain ⟨st, hfold, hmiss⟩ := ih st0 hcoerce'
        refine ⟨st, by simpa [hreq] using hfold, ?_⟩
        simp [hmiss, missingList, List.filter_cons, hreq]
    | some .null =>
      have hstep : paramStep args st0 p =
          .ok (if p.required then { st0 with missing := st0.missing ++ [missingEntry p] }
               else st0) := by
        simp [paramStep, hv]
      rw [hstep]
      by_cases hreq : p.required
      · obtain ⟨st, hfold, hmiss⟩ :=
          ih { st0 with missing := st0.missing ++ [missingEntry p] } hcoerce'
        refine ⟨st, by simpa [hreq] using hfold, ?_⟩
        simp [hmiss, missingList, List.filter_cons, hreq, isAbsentArg, hv]
      · obtain ⟨st, hfold, hmiss⟩ := ih st0 hcoerce'
        refine ⟨st, by simpa [hreq] using hfold, ?_⟩
        simp [hmiss, missingList, List.filter_cons, hreq]
    | some (.bool b) =>
      obtain ⟨pv, hpv⟩ : ∃ pv, processParameterValue p (.bool b) = .ok pv := by
        have := hcoerce p (List.mem_cons_self p ps) (.bool b) hv (by simp)
        cases hpp : processParameterValue p (.bool b) with
        | ok pv => exact ⟨pv, rfl⟩
        | error e => rw [hpp] at this; simp [Except.isOk, Except.toBool] at this
      have hstep : paramStep args st0 p = .ok (routeParam p pv st0) := by
        simp [paramStep, hv, hpv, Except.map]
      rw [hstep]
      obtain ⟨st, hfold, hmiss⟩ := ih (routeParam p pv st0) hcoerce'
      refine ⟨st, by simpa using hfold, ?_⟩
      simp [hmiss, routeParam_missing, missingList, List.filter_cons, isAbsentArg, hv]
    | some (.num x) =>
      obtain ⟨pv, hpv⟩ : ∃ pv, processParameterValue p (.num x) = .ok pv := by
        have := hcoerce p (List.mem_cons_self p ps) (.num x) hv (by simp)
        cases hpp : processParameterValue p (.num x) with
        | ok pv => exact ⟨pv, rfl⟩
        | error e => rw [hpp] at this; simp [Except.isOk, Except.toBool] at this
      have hstep : paramStep args st0 p = .ok (routeParam p pv st0) := by
        simp [paramStep, hv, hpv, Except.map]
      rw [hstep]
      obtain ⟨st, hfold, hmiss⟩ := ih (routeParam p pv st0) hcoerce'
      refine ⟨st, by simpa using hfold, ?_⟩
      simp [hmiss, routeParam_missing, missingList, List.filter_cons, isAbsentArg, hv]
    | some (.str s) =>
      obtain ⟨pv, hpv⟩ : ∃ pv, processParameterValue p (.str s) = .ok pv := by
        have := hcoerce p (List.mem_cons_self p ps) (.str s) hv (by simp)
        cases hpp : processParameterValue p (.str s) with
        | ok pv => exact ⟨pv, rfl⟩
        | error e => rw [hpp] at this; simp [Except.isOk, Except.toBool] at this
      have hstep : paramStep args st0 p = .ok (routeParam p pv st0) := by
        simp [paramStep, hv, hpv, Except.map]
      rw [hstep]
      obtain ⟨st, hfold, hmiss⟩ := ih (routeParam p pv st0) hcoerce'
      refine ⟨st, by simpa using hfold, ?_⟩
      simp [hmiss, routeParam_missing, missingList, List.filter_cons, isAbsentArg, hv]
    | some (.arr xs) =>
      obtain ⟨pv, hpv⟩ : ∃ pv, processParameterValue p (.arr xs) = .ok pv := by
        have := hcoerce p (List.mem_cons_self p ps) (.arr xs) hv (by simp)
        cases hpp : processParameterValue p (.arr xs) with
        | ok pv => exact ⟨pv, rfl⟩
        | error e => rw [hpp] at this; simp [Except.isOk, Except.toBool] at this
      have hstep : paramStep args st0 p = .ok (routeParam p pv st0) := by
        simp [paramStep, hv, hpv, Except.map]
      rw [hstep]
      obtain ⟨st, hfold, hmiss⟩ := ih (routeParam p pv st0) hcoerce'
      refine ⟨st, by simpa using hfold, ?_⟩
      simp [hmiss, routeParam_missing, missingList, List.filter_cons, isAbsentArg, hv]
    | some (.obj fs) =>
      obtain ⟨pv, hpv⟩ : ∃ pv, processParameterValue p (.obj fs) = .ok pv := by
        have := hcoerce p (List.mem_cons_self p ps) (.obj fs) hv (by simp)
        cases hpp : processParameterValue p (.obj fs) with
        | ok pv => exact ⟨pv, rfl⟩
        | error e => rw [hpp] at this; simp [Except.isOk, Except.toBool] at this
      have hstep : paramStep args st0 p = .ok (routeParam p pv st0) := by
        simp [paramStep, hv, hpv, Except.map]
      rw [hstep]
      obtain ⟨st, hfold, hmiss⟩ := ih (routeParam p pv st0) hcoerce'
      refine ⟨st, by simpa using hfold, ?_⟩
      simp [hmiss, routeParam_missing, missingList, List.filter_cons, isAbsentArg, hv]

theorem processParams_missing (parameters : List Param) (args : String → Option JValue)
    (url0 : String)
    (hcoerce : ∀ p ∈ parameters, ∀ v, args p.name = some v → v ≠ .null →
      (processParameterValue p v).isOk = true)
    (hmiss : missingList parameters args ≠ []) :
    processParams parameters args url0 =
      .error (.missingRequiredParams (missingList parameters args)) := by
  obtain ⟨st, hfold, hmval⟩ := foldlM_paramStep_ok args parameters { url := url0 } hcoerce
  unfold processParams
  rw [hfold]
  have hsm : st.missing = missingList parameters args := by simpa using hmval
  simp [Bind.bind, Except.bind, hsm, hmiss]

end OpenapiMcp

namespace OpenapiMcp

/-! ## Concrete fixtures used by witnesses and counterexamples -/

/-- A raw `{type: "boolean"}` parameter schema. -/
def rawBoolSchema : RawSchema := .node { type := some "boolean" } none none none none none none

/-- A raw `{type: "integer"}` parameter schema. -/
def rawIntSchema : RawSchema := .node { type := some "integer" } none none none none none none

/-- A raw `{type: "string"}` parameter schema. -/
def rawStrSchema : RawSchema := .node { type := some "string" } none none none none none none

/-- A boolean query parameter. -/
def pBoolW : Param := { name := "flag", loc := .query, schema := some rawBoolSchema }

/-- An integer query parameter. -/
def pIntW : Param := { name := "lim", loc := .query, schema := some rawIntSchema }

/-- Operation with one required string parameter `a` and one optional integer
parameter `b`, both in the query. -/
def opC2x : OperationInfo :=
  { method := "GET", path := "/x",
    parameters :=
      [{ name := "a", loc := .query, required := true, schema := some rawStrSchema },
       { name := "b", loc := .query, schema := some rawIntSchema }] }

/-- Operation with one required string query parameter `a`. -/
def opC2w : OperationInfo :=
  { method := "GET", path := "/w",
    parameters := [{ name := "a", loc := .query, required := true, schema := some rawStrSchema }] }

/-- Operation with one required cookie parameter `session`. -/
def opC9 : OperationInfo :=
  { method := "GET", path := "/c",
    parameters := [{ name := "session", loc := .cookie, required := true }] }

/-- An argument function stripped of explicit nulls (`null` becomes absent). -/
def nullStripped (args : String → Option JValue) : String → Option JValue :=
  fun n =>
    match args n with
    | some .null => none
    | x => x

/-! ## More helper lemmas -/

theorem foldlM_congr {σ α ε : Type} (f g : σ → α → Except ε σ) (l : List α) (s0 : σ)
    (h : ∀ s a, a ∈ l → f s a = g s a) : l.foldlM f s0 = l.foldlM g s0 := by
  induction l generalizing s0 with
  | nil => rfl
  | cons a as ih =>
    rw [List.foldlM_cons, List.foldlM_cons, h s0 a (List.mem_cons_self a as)]
    cases g s0 a with
    | error e => rfl
    | ok s1 =>
      exact ih s1 (fun s a ha => h s a (List.mem_cons_of_mem _ ha))

end OpenapiMcp

namespace OpenapiMcp

/-! ## Claim theorems -/

/-- C2 (amended): for a known operation whose arguments omit (or pass as
`null`) one or more declared required parameters, and whose present arguments
all coerce successfully, `invoke` fails exactly once with an error listing
every missing required parameter as `name (location)`, in declaration order.
(The amendment adds the coercion proviso: a present argument that fails type
coercion aborts the loop before the batch check, see the counterexample.) -/
theorem executeOperation_missing_params_batch
    (fsys : String → FsEntry) (doc : SchemaDoc) (baseUrl : String)
    (operations : List (String × OperationInfo)) (operationId : String)
    (args : String → Option JValue) (info : OperationInfo)
    (hop : List.lookup operationId operations = some info)
    (hcoerce : ∀ p ∈ info.parameters, ∀ v, args p.name = some v → v ≠ .null →
      (processParameterValue p v).isOk = true)
    (hmiss : missingList info.parameters args ≠ []) :
    executeOperation fsys doc baseUrl operations operationId args
      = .error (.missingRequiredParams (missingList info.parameters args)) := by
  unfold executeOperation
  simp only [hop]
  rw [processParams_missing info.parameters args (baseUrl ++ info.path) hcoerce hmiss]
  rfl

/-- C2 witness: calling `opC2w` (required query parameter `a`) with no
arguments fails with the batch error listing `a (query)`. -/
theorem executeOperation_missing_params_batch_witness :
    missingList opC2w.parameters (fun _ => none) = ["a (query)"] ∧
    executeOperation (fun _ => .absent) [] "http://h" [("op", opC2w)] "op" (fun _ => none)
      = .error (.missingRequiredParams (missingList opC2w.parameters (fun _ => none))) :=
  ⟨by decide,
   executeOperation_missing_params_batch (fun _ => .absent) [] "http://h" [("op", opC2w)] "op"
     (fun _ => none) opC2w rfl
     (fun _ _ v hv _ => Option.noConfusion hv)
     (by decide)⟩

/-- C2 counterexample to the claim as stated: on `opC2x` the required query
parameter `a` is missing, yet calling with only the ill-typed optional
integer `b = "xyz"` fails with the single-parameter coercion error, not with
the batch missing-parameters error. -/
theorem executeOperation_coercion_failure_preempts_missing :
    missingList opC2x.parameters (fun n => if n = "b" then some (.str "xyz") else none)
      = ["a (query)"] ∧
    executeOperation (fun _ => .absent) [] "http://h" [("op", opC2x)] "op"
      (fun n => if n = "b" then some (.str "xyz") else none)
      = .error (.invalidParameterType "b" "a valid number" "xyz") := by
  constructor
  · decide
  · rfl

/-- C7 (confirmed): for a parameter whose declared schema type is `boolean`,
a boolean literal passes through unchanged, the strings `true`/`false`
compared case-insensitively coerce to the corresponding booleans, and any
other value fails with the boolean `InvalidParameterType` error. -/
theorem processParameterValue_boolean_coercion (p : Param) (sch : RawSchema)
    (hsch : p.schema = some sch) (hty : rawSchemaType sch = some "boolean") :
    (∀ b, processParameterValue p (.bool b) = .ok (.bool b)) ∧
    (∀ s, jsToLower s = "true" → processParameterValue p (.str s) = .ok (.bool true)) ∧
    (∀ s, jsToLower s = "false" → processParameterValue p (.str s) = .ok (.bool false)) ∧
    (∀ v, (∀ b, v ≠ .bool b) →
      (∀ s, v = .str s → jsToLower s ≠ "true" ∧ jsToLower s ≠ "false") →
      processParameterValue p v
        = .error (.invalidParameterType p.name "a boolean" (jsToString v))) := by
  refine ⟨?_, ?_, ?_, ?_⟩
  · intro b
    simp [processParameterValue, hsch, hty]
  · intro s hs
    simp [processParameterValue, hsch, hty, hs]
  · intro s hs
    simp [processParameterValue, hsch, hty, hs]
  · intro v hnb hns
    match v with
    | .bool b => exact absurd rfl (hnb b)
    | .str s =>
      obtain ⟨h1, h2⟩ := hns s rfl
      simp [processParameterValue, hsch, hty, h1, h2]
    | .null => simp [processParameterValue, hsch, hty]
    | .num x => simp [processParameterValue, hsch, hty]
    | .arr xs => simp [processParameterValue, hsch, hty]
    | .obj fs => simp [processParameterValue, hsch, hty]

/-- C7 witness: concrete boolean coercions on the parameter `flag`. -/
theorem processParameterValue_boolean_coercion_witness :
    processParameterValue pBoolW (.bool true) = .ok (.bool true) ∧
    processParameterValue pBoolW (.str "TRUE") = .ok (.bool true) ∧
    processParameterValue pBoolW (.str "False") = .ok (.bool false) ∧
    processParameterValue pBoolW (.str "yes")
      = .error (.invalidParameterType "flag" "a boolean" "yes") := by
  have h := processParameterValue_boolean_coercion pBoolW rawBoolSchema rfl rfl
  refine ⟨h.1 true, h.2.1 "TRUE" (by decide), h.2.2.1 "False" (by decide), ?_⟩
  have h4 := h.2.2.2 (.str "yes") (fun b hb => JValue.noConfusion hb)
    (fun s hs => by cases hs; exact ⟨by decide, by decide⟩)
  simpa using h4

/-- C8 (amended): for a parameter whose declared schema type is `integer` or
`number`, coercion fails with `InvalidParameterType` if and only if
`Number(value)` is NaN; a value converting to a non-NaN number — including
the non-finite `Infinity`/`-Infinity`, which the claim as stated excludes —
is accepted, and the parsed number is the value routed to the parameter's
location. -/
theorem processParameterValue_numeric (p : Param) (sch : RawSchema)
    (hsch : p.schema = some sch)
    (hty : rawSchemaType sch = some "integer" ∨ rawSchemaType sch = some "number") :
    (∀ v, processParameterValue p v
        = .error (.invalidParameterType p.name "a valid number" (jsToString v))
      ↔ jsToNumber v = .nan) ∧
    (∀ v, jsToNumber v ≠ .nan → processParameterValue p v = .ok (.num (jsToNumber v))) ∧
    (∀ args st v, args p.name = some v → v ≠ .null → jsToNumber v ≠ .nan →
      paramStep args st p = .ok (routeParam p (.num (jsToNumber v)) st)) := by
  have hval : ∀ v, processParameterValue p v =
      (if jsToNumber v = .nan then
        .error (.invalidParameterType p.name "a valid number" (jsToString v))
       else .ok (.num (jsToNumber v))) := by
    intro v
    rcases hty with hty | hty <;> simp [processParameterValue, hsch, hty]
  refine ⟨?_, ?_, ?_⟩
  · intro v
    rw [hval v]
    by_cases hn : jsToNumber v = .nan
    · simp [hn]
    · simp [hn]
  · intro v hn
    rw [hval v]
    simp [hn]
  · intro args st v hv hnull hn
    have : paramStep args st p = (processParameterValue p v).map (fun pv => routeParam p pv st) := by
      unfold paramStep
      rw [hv]
      match v, hnull with
      | .bool b, _ => rfl
      | .num x, _ => rfl
      | .str s, _ => rfl
      | .arr xs, _ => rfl
      | .obj fs, _ => rfl
    rw [this, hval v]
    simp [hn, Except.map]

/-- C8 witness: the integer parameter `lim` rejects `"abc"` with the numeric
type error and accepts the number `7` unchanged, routing it to the query. -/
theorem processParameterValue_numeric_witness :
    processParameterValue pIntW (.str "abc")
      = .error (.invalidParameterType "lim" "a valid number" "abc") ∧
    processParameterValue pIntW (.num (.fin 7)) = .ok (.num (.fin 7)) := by
  have h := processParameterValue_numeric pIntW rawIntSchema rfl (Or.inl rfl)
  constructor
  · have := (h.1 (.str "abc")).mpr (by decide)
    simpa using this
  · simpa using h.2.1 (.num (.fin 7)) (by decide)

/-- C8 counterexample to the claim as stated: `Number("Infinity")` is not a
finite number, yet coercion of the integer parameter succeeds (only NaN is
rejected, because the source tests `isNaN`, not `isFinite`). -/
theorem processParameterValue_accepts_nonfinite :
    processParameterValue pIntW (.str "Infinity") = .ok (.num .inf) ∧
    (jsToNumber (.str "Infinity")).isFinite = false := by
  constructor
  · rfl
  · rfl

end OpenapiMcp

namespace OpenapiMcp

/-- C9 (amended): cookie parameters are excluded from the generated tool's
input schema (dropping them changes neither the properties object nor the
required list) and are never transmitted (the routing switch has no cookie
case), but — contrary to the claim as stated — the invoker still validates
them: a missing required cookie parameter is recorded in the
missing-parameter batch exactly like any other location. -/
theorem cookie_parameters_excluded_but_validated :
    (∀ doc ps acc, toolParamProps doc ps acc
      = toolParamProps doc (ps.filter (fun p => decide (p.loc ≠ ParamLoc.cookie))) acc) ∧
    (∀ ps, toolRequiredParams ps
      = toolRequiredParams (ps.filter (fun p => decide (p.loc ≠ ParamLoc.cookie)))) ∧
    (∀ p pv st, p.loc = .cookie → routeParam p pv st = st) ∧
    (∀ args st p, p.loc = .cookie → p.required = true → isAbsentArg args p.name = true →
      paramStep args st p = .ok { st with missing := st.missing ++ [missingEntry p] }) := by
  refine ⟨?_, ?_, ?_, ?_⟩
  · intro doc ps
    induction ps with
    | nil => intro acc; rfl
    | cons p ps ih =>
      intro acc
      by_cases hc : p.loc = ParamLoc.cookie
      · rw [List.filter_cons, show (decide (p.loc ≠ ParamLoc.cookie)) = false by simp [hc]]
        simp only [Bool.false_eq_true, if_false]
        simp only [toolParamProps, hc, if_true]
        exact ih acc
      · rw [List.filter_cons, show (decide (p.loc ≠ ParamLoc.cookie)) = true by simp [hc]]
        simp only [if_true]
        simp only [toolParamProps]
        rw [if_neg hc, if_neg hc]
        cases hrs : resolveParameterSchema doc p with
        | none => rfl
        | some rs => exact ih _
  · intro ps
    induction ps with
    | nil => rfl
    | cons p ps ih =>
      by_cases hc : p.loc = ParamLoc.cookie
      · rw [List.filter_cons, show (decide (p.loc ≠ ParamLoc.cookie)) = false by simp [hc]]
        simp only [Bool.false_eq_true, if_false]
        simp only [toolRequiredParams, hc, if_true]
        exact ih
      · rw [List.filter_cons, show (decide (p.loc ≠ ParamLoc.cookie)) = true by simp [hc]]
        simp only [if_true]
        simp only [toolRequiredParams]
        rw [if_neg hc, if_neg hc]
        by_cases hr : p.required <;> simp [hr, ih]
  · intro p pv st hc
    unfold routeParam
    rw [hc]
  · intro args st p hc hreq habs
    unfold paramStep
    cases hv : args p.name with
    | none => simp [hreq]
    | some v =>
      cases v with
      | null => simp [hreq]
      | bool b => simp [isAbsentArg, hv] at habs
      | num x => simp [isAbsentArg, hv] at habs
      | str s' => simp [isAbsentArg, hv] at habs
      | arr xs => simp [isAbsentArg, hv] at habs
      | obj fs => simp [isAbsentArg, hv] at habs

/-- C9 witness: the tool-schema exclusion, the no-transmission routing and
the still-validated missing check, at a concrete cookie parameter. -/
theorem cookie_parameters_excluded_but_validated_witness :
    toolParamProps [] opC9.parameters []
      = toolParamProps [] (opC9.parameters.filter (fun p => decide (p.loc ≠ ParamLoc.cookie))) [] ∧
    routeParam { name := "session", loc := .cookie, required := true } (.str "v")
      { url := "u" } = { url := "u" } ∧
    paramStep (fun _ => none) { url := "u" } { name := "session", loc := .cookie, required := true }
      = .ok { url := "u", missing := ["session (cookie)"] } := by
  refine ⟨cookie_parameters_excluded_but_validated.1 [] opC9.parameters [],
    cookie_parameters_excluded_but_validated.2.2.1
      { name := "session", loc := .cookie, required := true } (.str "v") { url := "u" } rfl,
    ?_⟩
  have h := cookie_parameters_excluded_but_validated.2.2.2 (fun _ => none) { url := "u" }
    { name := "session", loc := .cookie, required := true } rfl rfl rfl
  simpa [missingEntry, ParamLoc.name] using h

/-- C9 counterexample to the claim as stated: an absent required cookie
parameter does cause `invoke` to fail (with the batch missing-parameters
error), because the invoker's validation loop does not drop cookies. -/
theorem executeOperation_missing_cookie_fails :
    executeOperation (fun _ => .absent) [] "http://h" [("op", opC9)] "op" (fun _ => none)
      = .error (.missingRequiredParams ["session (cookie)"]) := rfl

/-- C10 (confirmed): an argument explicitly supplied as `null` is treated
identically to an omitted argument: replacing every `null` argument by an
absent one leaves the whole parameter phase unchanged, and a `null` argument
is skipped with no coercion and no routing, contributing exactly its
`name (location)` entry to the missing list when the parameter is required
and nothing otherwise. -/
theorem null_argument_treated_as_omitted :
    (∀ parameters args url0,
      processParams parameters args url0 = processParams parameters (nullStripped args) url0) ∧
    (∀ args st p, args p.name = some .null →
      paramStep args st p
        = .ok (if p.required then { st with missing := st.missing ++ [missingEntry p] }
               else st)) := by
  have hstep : ∀ args st p, paramStep (nullStripped args) st p = paramStep args st p := by
    intro args st p
    unfold paramStep nullStripped
    cases hv : args p.name with
    | none => simp [hv]
    | some v =>
      cases v with
      | null => simp [hv]
      | bool b => simp [hv]
      | num x => simp [hv]
      | str s' => simp [hv]
      | arr xs => simp [hv]
      | obj fs => simp [hv]
  refine ⟨?_, ?_⟩
  · intro parameters args url0
    unfold processParams
    rw [foldlM_congr (paramStep args) (paramStep (nullStripped args)) parameters
      { url := url0 } (fun s a _ => (hstep args s a).symm)]
  · intro args st p hv
    unfold paramStep
    rw [hv]

/-- C10 witness: a `null` for the required parameter `a` behaves exactly like
omitting it, and is recorded in the missing list. -/
theorem null_argument_treated_as_omitted_witness :
    processParams opC2w.parameters (fun n => if n = "a" then some .null else none) "u"
      = processParams opC2w.parameters
          (nullStripped (fun n => if n = "a" then some .null else none)) "u" ∧
    paramStep (fun n => if n = "a" then some .null else none) { url := "u" }
      { name := "a", loc := .query, required := true, schema := some rawStrSchema }
      = .ok { url := "u", missing := ["a (query)"] } := by
  refine ⟨null_argument_treated_as_omitted.1 opC2w.parameters
    (fun n => if n = "a" then some .null else none) "u", ?_⟩
  have h := null_argument_treated_as_omitted.2 (fun n => if n = "a" then some .null else none)
    { url := "u" } { name := "a", loc := .query, required := true, schema := some rawStrSchema }
    (by simp)
  simpa [missingEntry, ParamLoc.name] using h

end OpenapiMcp

namespace OpenapiMcp

theorem strLeb_go_refl (xs : List Char) : strLeb.go xs xs = true := by
  induction xs with
  | nil => rfl
  | cons x xs ih => simp [strLeb.go, lt_irrefl, ih]

theorem strLeb_go_cons_iff (x y : Char) (xs ys : List Char) :
    strLeb.go (x :: xs) (y :: ys) = true ↔ x < y ∨ (x = y ∧ strLeb.go xs ys = true) := by
  rw [strLeb.go]
  rcases lt_trichotomy x y with h | h | h
  · simp [h]
  · subst h
    simp [lt_irrefl]
  · have hnxy : ¬ x < y := asymm h
    have hne : x ≠ y := ne_of_gt h
    simp [hnxy, h, hne]

theorem strLeb_go_total (xs ys : List Char) :
    strLeb.go xs ys = true ∨ strLeb.go ys xs = true := by
  induction xs generalizing ys with
  | nil => exact Or.inl rfl
  | cons x xs ih =>
    cases ys with
    | nil => exact Or.inr rfl
    | cons y ys =>
      rw [strLeb_go_cons_iff, strLeb_go_cons_iff]
      rcases lt_trichotomy x y with h | h | h
      · exact Or.inl (Or.inl h)
      · subst h
        rcases ih ys with h' | h'
        · exact Or.inl (Or.inr ⟨rfl, h'⟩)
        · exact Or.inr (Or.inr ⟨rfl, h'⟩)
      · exact Or.inr (Or.inl h)

theorem strLeb_go_trans (xs ys zs : List Char)
    (h1 : strLeb.go xs ys = true) (h2 : strLeb.go ys zs = true) :
    strLeb.go xs zs = true := by
  induction xs generalizing ys zs with
  | nil => rfl
  | cons x xs ih =>
    cases ys with
    | nil => simp [strLeb.go] at h1
    | cons y ys =>
      cases zs with
      | nil => simp [strLeb.go] at h2
      | cons z zs =>
        rw [strLeb_go_cons_iff] at h1 h2 ⊢
        rcases h1 with h1 | ⟨h1e, h1g⟩
        · rcases h2 with h2 | ⟨h2e, _⟩
          · exact Or.inl (lt_trans h1 h2)
          · exact Or.inl (h2e ▸ h1)
        · rcases h2 with h2 | ⟨h2e, h2g⟩
          · exact Or.inl (h1e ▸ h2)
          · exact Or.inr ⟨h1e.trans h2e, ih ys zs h1g h2g⟩

theorem strLeb_total (a b : String) : strLeb a b = true ∨ strLeb b a = true :=
  strLeb_go_total a.data b.data

theorem strLeb_trans (a b c : String) (h1 : strLeb a b = true) (h2 : strLeb b c = true) :
    strLeb a c = true :=
  strLeb_go_trans a.data b.data c.data h1 h2

theorem ctLEb_iff (a b : String) :
    ctLEb a b = true ↔ ctRank a < ctRank b ∨ (ctRank a = ctRank b ∧ strLeb a b = true) := by
  simp [ctLEb]

instance ctLEbIsTotal : IsTotal String (fun a b => ctLEb a b = true) := by
  constructor
  intro a b
  rw [ctLEb_iff, ctLEb_iff]
  rcases lt_trichotomy (ctRank a) (ctRank b) with h | h | h
  · exact Or.inl (Or.inl h)
  · rcases strLeb_total a b with h' | h'
    · exact Or.inl (Or.inr ⟨h, h'⟩)
    · exact Or.inr (Or.inr ⟨h.symm, h'⟩)
  · exact Or.inr (Or.inl h)

instance ctLEbIsTrans : IsTrans String (fun a b => ctLEb a b = true) := by
  constructor
  intro a b c h1 h2
  rw [ctLEb_iff] at h1 h2 ⊢
  rcases h1 with h1 | ⟨h1e, h1s⟩
  · rcases h2 with h2 | ⟨h2e, _⟩
    · exact Or.inl (lt_trans h1 h2)
    · exact Or.inl (h2e ▸ h1)
  · rcases h2 with h2 | ⟨h2e, h2s⟩
    · exact Or.inl (h1e ▸ h2)
    · exact Or.inr ⟨h1e.trans h2e, strLeb_trans a b c h1s h2s⟩

theorem ctRank_inj (x y : String) (hx : ctRank x < 6) (hxy : ctRank x = ctRank y) :
    x = y := by
  have hlen : ctPriorities.length = 6 := rfl
  have hx' : List.indexOf x ctPriorities < ctPriorities.length := by
    unfold ctRank at hx
    omega
  have hy' : List.indexOf y ctPriorities < ctPriorities.length := by
    unfold ctRank at hx hxy
    omega
  have gx := List.indexOf_get hx'
  have gy := List.indexOf_get hy'
  unfold ctRank at hxy
  rw [← gx, ← gy]
  congr 1
  exact Fin.ext hxy

theorem getSupportedContentTypes_head (content : List (String × Option RawSchema)) (ct : String)
    (hmem : ct ∈ content.map Prod.fst) (hrank : ctRank ct < 6)
    (hmin : ∀ y ∈ content.map Prod.fst, ctRank ct ≤ ctRank y) :
    (getSupportedContentTypes content).head? = some ct := by
  unfold getSupportedContentTypes
  cases hs : List.insertionSort (fun a b => ctLEb a b = true) (content.map Prod.fst) with
  | nil =>
    exfalso
    have := (List.perm_insertionSort (fun a b => ctLEb a b = true) (content.map Prod.fst)).mem_iff.mpr hmem
    rw [hs] at this
    simp at this
  | cons h t =>
    have hsorted := List.sorted_insertionSort (fun a b => ctLEb a b = true) (content.map Prod.fst)
    rw [hs] at hsorted
    have hct_in : ct ∈ h :: t := by
      have := (List.perm_insertionSort (fun a b => ctLEb a b = true) (content.map Prod.fst)).mem_iff.mpr hmem
      rwa [hs] at this
    have hh_in : h ∈ content.map Prod.fst := by
      have : h ∈ List.insertionSort (fun a b => ctLEb a b = true) (content.map Prod.fst) := by
        rw [hs]; exact List.mem_cons_self h t
      exact (List.perm_insertionSort (fun a b => ctLEb a b = true) (content.map Prod.fst)).mem_iff.mp this
    rcases List.mem_cons.mp hct_in with hct | hct
    · simp [hct]
    · have hrel : ctLEb h ct = true := List.rel_of_sorted_cons hsorted ct hct
      have hge : ctRank ct ≤ ctRank h := hmin h hh_in
      rw [ctLEb_iff] at hrel
      have heq : ctRank h = ctRank ct := by
        rcases hrel with hlt | ⟨he, _⟩
        · omega
        · exact he
      have : h = ct := ctRank_inj h ct (by omega) heq
      simp [this]

end OpenapiMcp

namespace OpenapiMcp

theorem containsStr_iff (l : List String) (x : String) : l.contains x = true ↔ x ∈ l := by
  rw [List.contains_iff_exists_mem_beq]
  constructor
  · rintro ⟨a, ha, hbeq⟩
    rw [eq_of_beq hbeq]
    exact ha
  · intro h
    exact ⟨x, h, by simp⟩

theorem ctRank_probe_json : ctRank "application/json" = 0 := rfl

theorem ctRank_probe_xml : ctRank "application/xml" = 1 := rfl

theorem ctRank_probe_txml : ctRank "text/xml" = 2 := rfl

theorem ctRank_probe_form : ctRank "application/x-www-form-urlencoded" = 3 := rfl

theorem ctRank_probe_multipart : ctRank "multipart/form-data" = 4 := rfl

/-- Identify a string of a given priority rank below six. -/
theorem ctRank_eq_probe (y : String) :
    (ctRank y = 0 → y = "application/json") ∧
    (ctRank y = 1 → y = "application/xml") ∧
    (ctRank y = 2 → y = "text/xml") ∧
    (ctRank y = 3 → y = "application/x-www-form-urlencoded") ∧
    (ctRank y = 4 → y = "multipart/form-data") := by
  refine ⟨?_, ?_, ?_, ?_, ?_⟩ <;> intro h
  · exact ctRank_inj y "application/json" (by omega) (by rw [h]; rfl)
  · exact ctRank_inj y "application/xml" (by omega) (by rw [h]; rfl)
  · exact ctRank_inj y "text/xml" (by omega) (by rw [h]; rfl)
  · exact ctRank_inj y "application/x-www-form-urlencoded" (by omega) (by rw [h]; rfl)
  · exact ctRank_inj y "multipart/form-data" (by omega) (by rw [h]; rfl)

/-- C6 (amended): with no explicit truthy `Content-Type` header, whenever at
least one of the five probed content types (json, xml, text/xml, urlencoded,
multipart — not `text/plain`) is declared, the invoker's
`determineContentType` selects exactly the catalog's primary content type
(the head of `getSupportedContentTypes`).  Without such a type the two
disagree in general: the invoker falls back to the first declared type in
declaration order and does not prioritize `text/plain`, while the catalog
ranks `text/plain` ahead of the remaining types in code-unit order (see the
counterexample). -/
theorem determineContentType_matches_primary (requestBody : RequestBody)
    (headers : List (String × String))
    (hh1 : truthyOptStr (List.lookup "Content-Type" headers) = none)
    (hh2 : truthyOptStr (List.lookup "content-type" headers) = none)
    (hp : "application/json" ∈ requestBody.content.map Prod.fst ∨
          "application/xml" ∈ requestBody.content.map Prod.fst ∨
          "text/xml" ∈ requestBody.content.map Prod.fst ∨
          "application/x-www-form-urlencoded" ∈ requestBody.content.map Prod.fst ∨
          "multipart/form-data" ∈ requestBody.content.map Prod.fst) :
    determineContentType requestBody headers
      = (getSupportedContentTypes requestBody.content).head? := by
  unfold determineContentType
  rw [hh1, hh2]
  simp only []
  by_cases h0 : (requestBody.content.map Prod.fst).contains "application/json"
  · rw [if_pos h0]
    exact (getSupportedContentTypes_head _ _ ((containsStr_iff _ _).mp h0) (by decide)
      (fun y _ => by rw [ctRank_probe_json]; exact Nat.zero_le _)).symm
  · rw [if_neg h0]
    have hn0 : "application/json" ∉ requestBody.content.map Prod.fst :=
      fun hm => h0 ((containsStr_iff _ _).mpr hm)
    by_cases h1 : (requestBody.content.map Prod.fst).contains "application/xml"
    · rw [if_pos h1]
      refine (getSupportedContentTypes_head _ _ ((containsStr_iff _ _).mp h1) (by decide) ?_).symm
      intro y hy
      rw [ctRank_probe_xml]
      by_contra hlt
      have h00 : ctRank y = 0 := by omega
      exact hn0 ((ctRank_eq_probe y).1 h00 ▸ hy)
    · rw [if_neg h1]
      have hn1 : "application/xml" ∉ requestBody.content.map Prod.fst :=
        fun hm => h1 ((containsStr_iff _ _).mpr hm)
      by_cases h2 : (requestBody.content.map Prod.fst).contains "text/xml"
      · rw [if_pos h2]
        refine (getSupportedContentTypes_head _ _ ((containsStr_iff _ _).mp h2) (by decide) ?_).symm
        intro y hy
        rw [ctRank_probe_txml]
        by_contra hlt
        have hy2 : ctRank y = 0 ∨ ctRank y = 1 := by omega
        rcases hy2 with h00 | h00
        · exact hn0 ((ctRank_eq_probe y).1 h00 ▸ hy)
        · exact hn1 ((ctRank_eq_probe y).2.1 h00 ▸ hy)
      · rw [if_neg h2]
        have hn2 : "text/xml" ∉ requestBody.content.map Prod.fst :=
          fun hm => h2 ((containsStr_iff _ _).mpr hm)
        by_cases h3 : (requestBody.content.map Prod.fst).contains
            "application/x-www-form-urlencoded"
        · rw [if_pos h3]
          refine (getSupportedContentTypes_head _ _ ((containsStr_iff _ _).mp h3) (by decide)
            ?_).symm
          intro y hy
          rw [ctRank_probe_form]
          by_contra hlt
          have h00 : ctRank y = 0 ∨ ctRank y = 1 ∨ ctRank y = 2 := by omega
          rcases h00 with h00 | h00 | h00
          · exact hn0 ((ctRank_eq_probe y).1 h00 ▸ hy)
          · exact hn1 ((ctRank_eq_probe y).2.1 h00 ▸ hy)
          · exact hn2 ((ctRank_eq_probe y).2.2.1 h00 ▸ hy)
        · rw [if_neg h3]
          have hn3 : "application/x-www-form-urlencoded" ∉ requestBody.content.map Prod.fst :=
            fun hm => h3 ((containsStr_iff _ _).mpr hm)
          by_cases h4 : (requestBody.content.map Prod.fst).contains "multipart/form-data"
          · rw [if_pos h4]
            refine (getSupportedContentTypes_head _ _ ((containsStr_iff _ _).mp h4) (by decide)
              ?_).symm
            intro y hy
            rw [ctRank_probe_multipart]
            by_contra hlt
            have h00 : ctRank y = 0 ∨ ctRank y = 1 ∨ ctRank y = 2 ∨ ctRank y = 3 := by omega
            rcases h00 with h00 | h00 | h00 | h00
            · exact hn0 ((ctRank_eq_probe y).1 h00 ▸ hy)
            · exact hn1 ((ctRank_eq_probe y).2.1 h00 ▸ hy)
            · exact hn2 ((ctRank_eq_probe y).2.2.1 h00 ▸ hy)
            · exact hn3 ((ctRank_eq_probe y).2.2.2.1 h00 ▸ hy)
          · exfalso
            have hn4 : "multipart/form-data" ∉ requestBody.content.map Prod.fst :=
              fun hm => h4 ((containsStr_iff _ _).mpr hm)
            rcases hp with hp | hp | hp | hp | hp
            · exact hn0 hp
            · exact hn1 hp
            · exact hn2 hp
            · exact hn3 hp
            · exact hn4 hp

/-- C6 witness: with `text/plain` and `application/json` declared (in that
order), both the invoker and the catalog select `application/json`. -/
theorem determineContentType_matches_primary_witness :
    determineContentType { content := [("text/plain", none), ("application/json", none)] } []
      = (getSupportedContentTypes [("text/plain", none), ("application/json", none)]).head? ∧
    determineContentType { content := [("text/plain", none), ("application/json", none)] } []
      = some "application/json" :=
  ⟨determineContentType_matches_primary
      { content := [("text/plain", none), ("application/json", none)] } [] rfl rfl
      (Or.inl (by simp)),
   rfl⟩

/-- C6 counterexample to the claim as stated: with declared content types
`application/pdf` then `text/plain` (none of the five probed types), the
invoker picks the first declared type `application/pdf`, while the catalog's
primary is `text/plain` (priority 5 beats the unprioritized pdf) — the two
selection rules disagree, and neither follows the claimed common order for
`text/plain` and the lexical tail. -/
theorem determineContentType_disagrees_without_priority_type :
    determineContentType { content := [("application/pdf", none), ("text/plain", none)] } []
      = some "application/pdf" ∧
    (getSupportedContentTypes [("application/pdf", none), ("text/plain", none)]).head?
      = some "text/plain" := by
  constructor
  · rfl
  · rfl

end OpenapiMcp

namespace OpenapiMcp

/-- A raw `{format: "binary"}` schema (a scalar file-upload field). -/
def rawBinarySchema : RawSchema := .node { format := some "binary" } none none none none none none

/-- A two-entry file system fixture: one regular file, one directory. -/
def fsW : String → FsEntry := fun p =>
  if p = "/tmp/a.jpg" then .regular
  else if p = "/tmp/dir" then .directory
  else .absent

theorem foldlM_appendFiles (fsys : String → FsEntry) (key : String) (ss : List String)
    (hreg : ∀ s ∈ ss, fsys s = .regular) (acc : List Part) :
    ((ss.map JValue.str).foldlM
      (fun acc fp =>
        match fp with
        | .str s => (appendFileToFormData fsys key s).map (fun part => acc ++ [part])
        | _ => .error (.invalidFilePathType (jsTypeof fp)))
      acc : Except ExecErr (List Part))
      = .ok (acc ++ ss.map (fun s => .file key s (basename s) (getMimeType s))) := by
  induction ss generalizing acc with
  | nil =>
    simp only [List.map_nil, List.foldlM_nil, List.append_nil]
    rfl
  | cons s ss ih =>
    have hs := hreg s (List.mem_cons_self s ss)
    have happ : appendFileToFormData fsys key s
        = .ok (.file key s (basename s) (getMimeType s)) := by
      unfold appendFileToFormData
      rw [hs]
      simp
    have hrest := ih (fun t ht => hreg t (List.mem_cons_of_mem s ht))
      (acc ++ [Part.file key s (basename s) (getMimeType s)])
    rw [List.map_cons, List.foldlM_cons]
    simp only [happ, Except.map]
    exact hrest.trans (by simp)

/-- C5 (amended): during multipart assembly, for a body field classified as a
file field and a truthy value: a string naming an absent path fails with
`FileNotFound`, a string naming an existing non-regular-file path fails with
`NotAFile`, a string naming a regular file is attached under the field name
with filename equal to the path's base name, a truthy non-string non-array
value fails with `InvalidFilePathType`, an array whose first element is not a
string fails with `InvalidFilePathType`, and an array of strings naming
regular files attaches them all in order.  A falsy value (`null`, `false`,
`0`, `NaN` or the empty string) — which the claim as stated says must fail —
is instead appended as an ordinary text field, because the source guards the
file handling with the value's truthiness (`if (isFile && value)`). -/
theorem processMultipartEntry_file_field_classification
    (fsys : String → FsEntry) (properties : List (String × RawSchema)) (key : String)
    (hfile : isFileField (List.lookup key properties) = true) :
    (∀ s, s ≠ "" → fsys s = .absent →
      processMultipartEntry fsys properties key (.str s) = .error (.fileNotFound s)) ∧
    (∀ s, s ≠ "" → fsys s = .directory →
      processMultipartEntry fsys properties key (.str s) = .error (.notAFile s)) ∧
    (∀ s, s ≠ "" → fsys s = .regular →
      processMultipartEntry fsys properties key (.str s)
        = .ok [.file key s (basename s) (getMimeType s)]) ∧
    (∀ v, jsTruthy v = true → (∀ s, v ≠ .str s) → (∀ xs, v ≠ .arr xs) →
      processMultipartEntry fsys properties key v
        = .error (.invalidFilePathType (jsTypeof v))) ∧
    (∀ e rest, (∀ s, e ≠ .str s) →
      processMultipartEntry fsys properties key (.arr (e :: rest))
        = .error (.invalidFilePathType (jsTypeof e))) ∧
    (∀ ss : List String, (∀ s ∈ ss, fsys s = .regular) →
      processMultipartEntry fsys properties key (.arr (ss.map .str))
        = .ok (ss.map (fun s => .file key s (basename s) (getMimeType s)))) ∧
    (∀ v, jsTruthy v = false →
      processMultipartEntry fsys properties key v
        = .ok [.text key
            (match v with
             | .null | .arr _ | .obj _ => jsonStringify v
             | w => jsToString w)]) := by
  refine ⟨?_, ?_, ?_, ?_, ?_, ?_, ?_⟩
  · intro s hs habs
    have ht : jsTruthy (.str s) = true := by simpa [jsTruthy] using hs
    unfold processMultipartEntry
    simp only [hfile, ht, Bool.and_self, if_true]
    unfold appendFileToFormData
    rw [habs]
    simp [Except.map]
  · intro s hs hdir
    have ht : jsTruthy (.str s) = true := by simpa [jsTruthy] using hs
    unfold processMultipartEntry
    simp only [hfile, ht, Bool.and_self, if_true]
    unfold appendFileToFormData
    rw [hdir]
    simp [Except.map]
  · intro s hs hreg
    have ht : jsTruthy (.str s) = true := by simpa [jsTruthy] using hs
    unfold processMultipartEntry
    simp only [hfile, ht, Bool.and_self, if_true]
    unfold appendFileToFormData
    rw [hreg]
    simp [Except.map]
  · intro v htruthy hns hna
    unfold processMultipartEntry
    simp only [hfile, htruthy, Bool.and_self, if_true]
  · intro e rest hne
    unfold processMultipartEntry
    simp only [hfile, jsTruthy, Bool.and_self, if_true]
    rw [List.foldlM_cons]
    match e, hne with
    | .null, _ => rfl
    | .bool b, _ => rfl
    | .num x, _ => rfl
    | .str s, hne => exact absurd rfl (hne s)
    | .arr xs, _ => rfl
    | .obj fs, _ => rfl
  · intro ss hreg
    unfold processMultipartEntry
    simp only [hfile, jsTruthy, Bool.and_self, if_true]
    exact (foldlM_appendFiles fsys key ss hreg []).trans (by simp)
  · intro v hfalsy
    unfold processMultipartEntry
    simp only [hfile, hfalsy, Bool.and_false, Bool.false_eq_true, if_false]
    match v with
    | .null => rfl
    | .bool b => rfl
    | .num x => rfl
    | .str s => rfl
    | .arr xs => rfl
    | .obj fs => rfl

/-- C5 witness: concrete file-field outcomes against the fixture file
system. -/
theorem processMultipartEntry_file_field_classification_witness :
    processMultipartEntry fsW [("file", rawBinarySchema)] "file" (.str "/tmp/doesnotexist.jpg")
      = .error (.fileNotFound "/tmp/doesnotexist.jpg") ∧
    processMultipartEntry fsW [("file", rawBinarySchema)] "file" (.str "/tmp/dir")
      = .error (.notAFile "/tmp/dir") ∧
    processMultipartEntry fsW [("file", rawBinarySchema)] "file" (.str "/tmp/a.jpg")
      = .ok [.file "file" "/tmp/a.jpg" "a.jpg" "image/jpeg"] ∧
    processMultipartEntry fsW [("file", rawBinarySchema)] "file" (.num (.fin 5))
      = .error (.invalidFilePathType "number") := by
  have h := processMultipartEntry_file_field_classification fsW [("file", rawBinarySchema)]
    "file" rfl
  refine ⟨h.1 "/tmp/doesnotexist.jpg" (by decide) rfl,
    h.2.1 "/tmp/dir" (by decide) rfl, ?_, ?_⟩
  · have h3 := h.2.2.1 "/tmp/a.jpg" (by decide) rfl
    simpa using h3
  · have h4 := h.2.2.2.1 (.num (.fin 5)) rfl (fun s hq => JValue.noConfusion hq)
      (fun xs hq => JValue.noConfusion hq)
    simpa using h4

/-- C5 counterexample to the claim as stated: `null` is a non-string,
non-array value on a file-classified field, yet the call does not fail with
`InvalidFilePathType` — the falsy value takes the ordinary-field branch and
is appended as the text `"null"`. -/
theorem processMultipartEntry_null_file_field_text :
    isFileField (List.lookup "file" [("file", rawBinarySchema)]) = true ∧
    processMultipartEntry (fun _ => .absent) [("file", rawBinarySchema)] "file" .null
      = .ok [.text "file" "null"] :=
  ⟨rfl, rfl⟩

end OpenapiMcp

namespace OpenapiMcp

/-- C3 (amended): (0) resolving a node with declared properties resolves them
through the property loop and stores the result; (1) each property of the
loop's output is its recursively resolved schema, replaced by the file-path
transformation exactly when the file-upload check classifies the raw property
as a file field — a property not so classified keeps its literal resolved
schema; (2) the transformation itself rewrites an array-typed resolved schema
whose ITEMS carry format binary to an array-of-string schema, otherwise a
format-binary resolved schema to a scalar string schema — in both cases the
description contains "file path" and ends with the original description —
and leaves every other schema unchanged.  The claim's array shape "array
type whose own format is binary" is classified as a file upload but is NOT
rewritten to array-of-string: its resolved schema has no binary items, so the
transformation falls through to the scalar-string branch. -/
theorem resolveSchema_file_path_transformation :
    (∀ (doc : SchemaDoc) (stack : List String) (core : RawCore)
        (props : List (String × RawSchema))
        (addl : Option (Sum Bool RawSchema)) (items : Option RawSchema)
        (oneOfL anyOfL allOfL : Option (List RawSchema)) (r : Resolved),
      resolveSchema doc stack (.node core (some props) addl items oneOfL anyOfL allOfL)
        = some r →
      ∃ l, resolvePropsList doc stack props = some l ∧ r.properties = some l) ∧
    (∀ (doc : SchemaDoc) (stack : List String) (ps : List (String × RawSchema))
        (l : List (String × Resolved)) (k : String) (p : RawSchema),
      resolvePropsList doc stack ps = some l → (k, p) ∈ ps →
      ∃ rp fl, resolveSchema doc stack p = some rp ∧
        isFileUploadSchema doc [] p = some fl ∧
        (k, if fl then transformFileUploadSchema rp k else rp) ∈ l) ∧
    (∀ (s : Resolved) (k : String),
      (s.type = "array" → s.itemsBinary = true →
        transformFileUploadSchema s k
          = .mk { type := "array",
                  description := some ("Array of file paths to upload. "
                    ++ (s.description.getD "")) }
              none none
              (some (.mk { type := "string",
                           description := some "Absolute file path to upload" }
                none none none none none none))
              none none none) ∧
      (¬(s.type = "array" ∧ s.itemsBinary = true) → s.format = some "binary" →
        transformFileUploadSchema s k
          = .mk { type := "string",
                  description := some ("Absolute file path to upload. "
                    ++ (s.description.getD "")) }
              none none none none none none) ∧
      (¬(s.type = "array" ∧ s.itemsBinary = true) → s.format ≠ some "binary" →
        transformFileUploadSchema s k = s)) := by
  refine ⟨?_, ?_, ?_⟩
  · intro doc stack core props addl items oneOfL anyOfL allOfL r h
    simp only [resolveSchema, Option.pure_def, Option.bind_eq_bind,
      Option.bind_eq_some, Option.some.injEq] at h
    obtain ⟨rprops, hrp, raddl, hra, ritems, hri, roneOf, hro,
      ranyOf, hry, rallOf, hrl, hr⟩ := h
    rw [resolvePropsOpt, Option.map_eq_some'] at hrp
    obtain ⟨l, hl, hrprops⟩ := hrp
    refine ⟨l, hl, ?_⟩
    rw [← hr]
    simp [assembleResolvedNode, Resolved.properties, ← hrprops]
  · intro doc stack ps
    induction ps with
    | nil =>
      intro l k p hl hmem
      simp at hmem
    | cons hd tl ih =>
      intro l k p hl hmem
      obtain ⟨k0, p0⟩ := hd
      rw [resolvePropsList] at hl
      simp only [Option.pure_def, Option.bind_eq_bind, Option.bind_eq_some,
        Option.some.injEq] at hl
      obtain ⟨rp, hrp, fl, hfl, rest, hrest, hcons⟩ := hl
      rcases List.mem_cons.mp hmem with heq | hmemtl
      · injection heq with hk hp
        subst hk
        subst hp
        refine ⟨rp, fl, hrp, hfl, ?_⟩
        rw [← hcons]
        exact List.mem_cons_self _ _
      · obtain ⟨rp', fl', h1, h2, h3⟩ := ih rest k p hrest hmemtl
        refine ⟨rp', fl', h1, h2, ?_⟩
        rw [← hcons]
        exact List.mem_cons_of_mem _ h3
  · intro s k
    refine ⟨?_, ?_, ?_⟩
    · intro h1 h2
      unfold transformFileUploadSchema
      simp [h1, h2]
    · intro hno hf
      have hb : s.itemsBinary = false ∨ ¬ s.type = "array" := by
        by_cases ha : s.type = "array"
        · by_cases hib : s.itemsBinary = true
          · exact absurd ⟨ha, hib⟩ hno
          · exact Or.inl (by simpa using hib)
        · exact Or.inr ha
      unfold transformFileUploadSchema
      rcases hb with hb | hb
      · simp [hb, hf]
      · simp [hb, hf]
    · intro hno hf
      have hb : s.itemsBinary = false ∨ ¬ s.type = "array" := by
        by_cases ha : s.type = "array"
        · by_cases hib : s.itemsBinary = true
          · exact absurd ⟨ha, hib⟩ hno
          · exact Or.inl (by simpa using hib)
        · exact Or.inr ha
      unfold transformFileUploadSchema
      rcases hb with hb | hb
      · simp [hb, hf]
      · simp [hb, hf]

/-- A raw array-typed schema carrying `format: binary` at the array level,
with no items. -/
def rawArrayLevelBinary : RawSchema :=
  .node { type := some "array", format := some "binary" } none none none none none none

/-- An object node with one property of the above shape. -/
def nodeArrayLevelBinary : RawSchema :=
  .node {} (some [("f", rawArrayLevelBinary)]) none none none none none

/-- C3 counterexample to the claim as stated: a property that is an array
type whose OWN format is binary (no items) is classified as a file upload,
yet its tool-facing schema resolves to scalar type `string`, not the
array-of-string schema the claim requires for the array shapes. -/
theorem resolveSchema_array_level_binary_scalar :
    isFileUploadSchema [] [] rawArrayLevelBinary = some true ∧
    (resolveSchema [] [] nodeArrayLevelBinary).map
        (fun r => (r.properties.getD []).map (fun kp => (kp.1, kp.2.type)))
      = some [("f", "string")] := by
  constructor
  · simp [isFileUploadSchema, rawArrayLevelBinary]
  · simp [resolveSchema, nodeArrayLevelBinary, rawArrayLevelBinary, resolvePropsOpt,
      resolvePropsList, resolveAddlOpt, resolveItemsOpt, resolveBranchesOpt,
      resolveReference, isFileUploadSchema, transformFileUploadSchema,
      assembleResolvedNode, nodeBaseType, Resolved.properties, Resolved.type,
      Resolved.core, Resolved.itemsBinary, Resolved.items, Resolved.format,
      truthyOptStr]

end OpenapiMcp

namespace OpenapiMcp

/-- A `oneOf` branch of type string. -/
def oneOfBranchString : RawSchema :=
  .node { type := some "string" } none none none none none none

/-- A `oneOf` branch of type integer. -/
def oneOfBranchInteger : RawSchema :=
  .node { type := some "integer" } none none none none none none

/-- A schema node declaring `oneOf` branches and no explicit type. -/
def nodeOneOfNoType : RawSchema :=
  .node {} none none none (some [oneOfBranchString, oneOfBranchInteger]) none none

/-- C4: a node with `oneOf: [string, integer]` and no explicit type resolves
with one recursively resolved entry per branch and the composition
description clause, but its resolved type is `"string"`, NOT the claimed
`"object"`: the base type is computed up front as
`schema.type || (schema.properties ? 'object' : 'string')`, which is always
a non-empty string, so the later `if (!resolved.type) resolved.type =
'object'` guard in each composition block can never fire. -/
theorem resolveSchema_oneOf_without_type_is_string :
    (resolveSchema [] [] nodeOneOfNoType).map
        (fun r => (r.type, (r.oneOf.getD []).map Resolved.type, r.description.getD ""))
      = some ("string", ["string", "integer"],
          "Schema supports one of the following options") := by
  simp [resolveSchema, nodeOneOfNoType, oneOfBranchString, oneOfBranchInteger,
    resolvePropsOpt, resolvePropsList, resolveAddlOpt, resolveItemsOpt,
    resolveBranchesOpt, resolveSchemaList, resolveReference, isFileUploadSchema,
    assembleResolvedNode, nodeBaseType, enhanceCompositionDescription,
    Resolved.type, Resolved.core, Resolved.oneOf, Resolved.description,
    truthyOptStr]

end OpenapiMcp

namespace OpenapiMcp

theorem isFileUploadSchema_node_isSome (doc : SchemaDoc) (visited : List String)
    (core : RawCore) (props : Option (List (String × RawSchema)))
    (addl : Option (Sum Bool RawSchema)) (items : Option RawSchema)
    (o a l : Option (List RawSchema)) :
    (isFileUploadSchema doc visited (.node core props addl items o a l)).isSome
      = true := by
  match items with
  | none => simp [isFileUploadSchema, apply_ite (Option.isSome)]
  | some (.ref r2) => simp [isFileUploadSchema, apply_ite (Option.isSome)]
  | some (.node icore ip ia ii io iy il) =>
    simp [isFileUploadSchema, apply_ite (Option.isSome)]

theorem isFileUploadSchema_isSome_of_no_ref_targets (doc : SchemaDoc)
    (hnr : ∀ r t, List.lookup r doc = some t → t.isRef = false) (s : RawSchema) :
    (isFileUploadSchema doc [] s).isSome = true := by
  cases s with
  | node core props addl items o a l =>
    exact isFileUploadSchema_node_isSome doc [] core props addl items o a l
  | ref r =>
    rw [isFileUploadSchema, dif_neg (by simp : ¬ r ∈ ([] : List String))]
    split
    · next t heq =>
      have hnref := hnr r t heq
      cases t with
      | ref r2 => simp [RawSchema.isRef] at hnref
      | node core2 p2 a2 i2 o2 y2 l2 =>
        exact isFileUploadSchema_node_isSome doc [r] core2 p2 a2 i2 o2 y2 l2
    · simp

/-- C1 (amended): (i) the cycle-termination policy holds: a reference that is
already on the per-call in-flight stack resolves, without recursing further,
to the placeholder of type `object`, `additionalProperties: true` and a
description flagging the circular reference; (ii) on every document in which
no reference target is itself a bare `$ref`, resolution terminates on every
stack and schema node.  The claim's unconditional "for every schema document
... resolve terminates" is false: `isFileUploadSchema` follows `$ref` chains
with no cycle protection, so a property whose schema references a
ref-to-itself target makes the property loop recurse forever (a stack
overflow at runtime), modelled by `resolveSchema` returning `none`. -/
theorem resolveSchema_cycle_policy_and_termination :
    (∀ (doc : SchemaDoc) (stack : List String) (r : String), r ∈ stack →
      resolveSchema doc stack (.ref r) = some (circularPlaceholder r)) ∧
    (∀ (doc : SchemaDoc),
      (∀ r t, List.lookup r doc = some t → t.isRef = false) →
      ∀ (stack : List String) (s : RawSchema),
        (resolveSchema doc stack s).isSome = true) := by
  constructor
  · intro doc stack r hmem
    rw [resolveSchema, dif_pos hmem]
  · intro doc hnr stack s
    refine resolveSchema.induct doc
      (fun stack s => (resolveSchema doc stack s).isSome = true)
      (fun stack o => (resolveBranchesOpt doc stack o).isSome = true)
      (fun stack bs => (resolveSchemaList doc stack bs).isSome = true)
      (fun stack rty o => (resolveItemsOpt doc stack rty o).isSome = true)
      (fun stack o => (resolveAddlOpt doc stack o).isSome = true)
      (fun stack o => (resolvePropsOpt doc stack o).isSome = true)
      (fun stack ps => (resolvePropsList doc stack ps).isSome = true)
      ?_ ?_ ?_ ?_ ?_ ?_ ?_ ?_ ?_ ?_ ?_ ?_ ?_ ?_ ?_ ?_ ?_ ?_ stack s
    · intro stack r hmem
      rw [resolveSchema, dif_pos hmem]
      rfl
    · intro stack r hmem t hl ih
      rw [resolveSchema, dif_neg hmem]
      split
      · next t' heq => rw [hl] at heq; cases heq; exact ih
      · next heq => rw [hl] at heq; cases heq
    · intro stack r hmem hl
      rw [resolveSchema, dif_neg hmem]
      split
      · next t' heq => rw [hl] at heq; cases heq
      · rfl
    · intro stack core props addl items o a l ih6 ih5 ih4 iho iha ihl
      rw [resolveSchema]
      obtain ⟨rp, hrp⟩ := Option.isSome_iff_exists.mp ih6
      obtain ⟨ra, hra⟩ := Option.isSome_iff_exists.mp ih5
      obtain ⟨ri, hri⟩ := Option.isSome_iff_exists.mp ih4
      obtain ⟨ro, hro⟩ := Option.isSome_iff_exists.mp iho
      obtain ⟨ry, hry⟩ := Option.isSome_iff_exists.mp iha
      obtain ⟨rl, hrl⟩ := Option.isSome_iff_exists.mp ihl
      simp [hrp, hra, hri, hro, hry, hrl]
    · intro stack
      simp [resolveBranchesOpt]
    · intro stack bs ih
      obtain ⟨v, hv⟩ := Option.isSome_iff_exists.mp ih
      simp [resolveBranchesOpt, hv]
    · intro stack
      simp [resolveSchemaList]
    · intro stack b bs ih1 ih3
      obtain ⟨v, hv⟩ := Option.isSome_iff_exists.mp ih1
      obtain ⟨vs, hvs⟩ := Option.isSome_iff_exists.mp ih3
      simp [resolveSchemaList, hv, hvs]
    · intro stack rty
      simp [resolveItemsOpt]
    · intro stack i ih
      obtain ⟨v, hv⟩ := Option.isSome_iff_exists.mp ih
      simp [resolveItemsOpt, hv]
    · intro stack rty i hne
      simp [resolveItemsOpt, hne]
    · intro stack
      simp [resolveAddlOpt]
    · intro stack b
      simp [resolveAddlOpt]
    · intro stack s ih
      obtain ⟨v, hv⟩ := Option.isSome_iff_exists.mp ih
      simp [resolveAddlOpt, hv]
    · intro stack
      simp [resolvePropsOpt]
    · intro stack ps ih
      obtain ⟨v, hv⟩ := Option.isSome_iff_exists.mp ih
      simp [resolvePropsOpt, hv]
    · intro stack
      simp [resolvePropsList]
    · intro stack k p ps ih1 ih7
      obtain ⟨v, hv⟩ := Option.isSome_iff_exists.mp ih1
      obtain ⟨vs, hvs⟩ := Option.isSome_iff_exists.mp ih7
      obtain ⟨fl, hfl⟩ := Option.isSome_iff_exists.mp
        (isFileUploadSchema_isSome_of_no_ref_targets doc hnr p)
      simp [resolvePropsList, hv, hvs, hfl]

/-- A document whose single entry is a reference to itself. -/
def docRefCycle : SchemaDoc :=
  [("#/components/schemas/A", .ref "#/components/schemas/A")]

/-- An object node with one property referencing the self-referential entry. -/
def nodePropRefCycle : RawSchema :=
  .node {} (some [("p", .ref "#/components/schemas/A")]) none none none none none

/-- C1 counterexample to the claim as stated: on a document whose entry
references itself, resolving a node with a property that points at that
entry diverges (`none` models the source's unbounded recursion): the
property loop's `isFileUploadSchema` follows the `$ref` chain with no cycle
protection, so the resolution stack's cycle policy never gets a chance to
stop it. -/
theorem resolveSchema_diverges_on_ref_cycle :
    resolveSchema docRefCycle [] nodePropRefCycle = none := by
  simp [resolveSchema, docRefCycle, nodePropRefCycle, resolvePropsOpt,
    resolvePropsList, resolveAddlOpt, resolveItemsOpt, resolveBranchesOpt,
    resolveReference, List.lookup, isFileUploadSchema]

end OpenapiMcp
